import Mathlib

/-!
Verification of the triathlon training platform's core logic.

This file gives a shallow embedding, in Lean, of the program's reorder
engine (`handleDragEnd` in `src/components/calendar/TrainingCalendar.tsx`),
its weekly rollup engine (`WeeklySummary.tsx` / `useWeeklyData`), the
intensity-zone sorter (`calculateIntensityDistribution`), and the workout
API route handlers (`POST /api/workouts`, `PATCH /api/workouts`,
`POST /api/workouts/copy-week`), and proves the documented properties of
those functions.

Modelling conventions:
* Calendar dates are modelled at day granularity as natural numbers; the
  numbering is chosen so that a day number divisible by 7 is a Monday
  (mirroring the source's `(date.getDay() + 6) % 7` convention).
* Identifiers (workout ids, label ids, user ids) are natural numbers.
  Database-generated fresh ids (`@default(uuid())`) are modelled by a
  `nextId` counter together with the freshness hypothesis that all stored
  ids are below it.
* Floating-point hour arithmetic (`duration / 60`) is modelled exactly
  over `ℚ`.
-/

namespace Triathlon

/-- The three sports, from `WorkoutType` in `src/types/workout.ts`. -/
inductive WorkoutType where
  | Swim
  | Bike
  | Run
deriving DecidableEq, Repr

/-- A workout row, from the `Workout` model of the Prisma schema /
`src/types/workout.ts` (fields irrelevant to the verified logic are
omitted; `duration` is in minutes). -/
structure Workout where
  id : Nat
  type : WorkoutType
  title : String
  description : String
  duration : Nat
  date : Nat
  order : Nat
  labelId : Option Nat
  userId : Nat
deriving DecidableEq, Repr

/-- A label row, from the `WorkoutLabel` model. -/
structure Label where
  id : Nat
  name : String
  color : String
  userId : Nat
deriving DecidableEq, Repr

/-! ### Day bucketing (`getWorkoutsForDay`)

`getWorkoutsForDay` filters the collection to one calendar day and sorts
by the `order` field (`filteredWorkouts.sort((a, b) => a.order - b.order)`;
JavaScript's sort is stable, as is `List.insertionSort`). -/

/-- The comparison used by `getWorkoutsForDay`'s sort. -/
def workoutRel (a b : Workout) : Prop := a.order ≤ b.order

instance : DecidableRel workoutRel := fun a b => Nat.decLe a.order b.order

instance : IsTotal Workout workoutRel := ⟨fun a b => Nat.le_total a.order b.order⟩

instance : IsTrans Workout workoutRel := ⟨fun _ _ _ h h' => Nat.le_trans h h'⟩

/-- Function `getWorkoutsForDay` from `TrainingCalendar.tsx`: the workouts that
fall on calendar day `d`, sorted ascending by `order`. -/
def getWorkoutsForDay (workouts : List Workout) (d : Nat) : List Workout :=
  List.insertionSort workoutRel (workouts.filter (fun w => decide (w.date = d)))

/-! ### The drag gesture and the emitted update plan -/

/-- A drop target: either a day container (`over.id` of the form
`day-yyyy-MM-dd`) or another workout's id. -/
inductive DropTarget where
  | day (d : Nat)
  | workout (id : Nat)
deriving DecidableEq, Repr

/-- One entry of the emitted update plan:
`{ id, order, date? }` as sent to `PATCH /api/workouts`. -/
structure WorkoutUpdate where
  id : Nat
  order : Nat
  date : Option Nat
deriving DecidableEq, Repr

/-- Function `arrayMove` from the dnd-kit sortable package: remove the element at index
`i`, then insert it at index `j` of the shortened array (`splice` clamps
an out-of-range start index to the array length, hence the `min`). -/
def arrayMove (l : List Workout) (i j : Nat) : List Workout :=
  match l[i]? with
  | some a =>
    let l' := l.eraseIdx i
    l'.insertIdx (min j l'.length) a
  | none => l

/-- Assign `order := position` along a list, starting at `k`, attaching
the date field chosen by `f` (this is the `.map((workout, index) => ...)`
step of `handleDragEnd`). -/
def ordersFrom (k : Nat) (f : Workout → Option Nat) : List Workout → List WorkoutUpdate
  | [] => []
  | w :: ws => ⟨w.id, k, f w⟩ :: ordersFrom (k + 1) f ws

/-- Resolution of the destination day in `handleDragEnd`: a day target is
used directly; a workout target contributes that workout's day, and an
unknown workout id makes the whole gesture abort (`return`). -/
def resolveDestDate (workouts : List Workout) (target : DropTarget) : Option Nat :=
  match target with
  | .day d => some d
  | .workout tid =>
    match workouts.find? (fun w => decide (w.id = tid)) with
    | some t => some t.date
    | none => none

/-- The insertion position for a cross-day move: the target workout's
index in the destination day (falling back to the end when the target is
not on that day), or the end of the day when dropped on the day
container. -/
def crossInsertIndex (destinationWorkouts : List Workout) (target : DropTarget) : Nat :=
  match target with
  | .workout tid =>
    match destinationWorkouts.findIdx? (fun w => decide (w.id = tid)) with
    | some targetIndex => targetIndex
    | none => destinationWorkouts.length
  | .day _ => destinationWorkouts.length

/-- The update list computed by `handleDragEnd` before the final
"anything to save?" check: `none` models the handler's early `return`s
(dragged workout missing, target workout missing, inconsistent indices),
`some us` the computed `updatedWorkouts` list (possibly empty). -/
def computeUpdates (workouts : List Workout) (draggedId : Nat) (target : DropTarget) :
    Option (List WorkoutUpdate) :=
  match workouts.find? (fun w => decide (w.id = draggedId)) with
  | none => none
  | some dragged =>
    let sourceDate := dragged.date
    let sourceWorkouts := getWorkoutsForDay workouts sourceDate
    match resolveDestDate workouts target with
    | none => none
    | some destinationDate =>
      let destinationWorkouts := getWorkoutsForDay workouts destinationDate
      if sourceDate = destinationDate then
        match target with
        | .day _ => some []
        | .workout tid =>
          match sourceWorkouts.findIdx? (fun w => decide (w.id = draggedId)),
                sourceWorkouts.findIdx? (fun w => decide (w.id = tid)) with
          | some sourceIndex, some targetIndex =>
            some (ordersFrom 0 (fun _ => none) (arrayMove sourceWorkouts sourceIndex targetIndex))
          | _, _ => none
      else
        match sourceWorkouts.findIdx? (fun w => decide (w.id = draggedId)) with
        | none => none
        | some sourceIndex =>
          let updatedSourceWorkouts := sourceWorkouts.eraseIdx sourceIndex
          let sourceUpdates := ordersFrom 0 (fun _ => none) updatedSourceWorkouts
          let insertIndex := crossInsertIndex destinationWorkouts target
          let updatedDestWorkouts :=
            destinationWorkouts.insertIdx insertIndex { dragged with date := destinationDate }
          let destUpdates :=
            ordersFrom 0
              (fun w => if w.id = draggedId then some destinationDate else none)
              updatedDestWorkouts
          some (sourceUpdates ++ destUpdates)

/-- Handler `handleDragEnd` from `TrainingCalendar.tsx`, as the plan it persists:
`some plan` means `reorderWorkouts(plan)` is called with a non-empty
`updatedWorkouts`; `none` means nothing is saved. -/
def handleDragEnd (workouts : List Workout) (draggedId : Nat) (target : DropTarget) :
    Option (List WorkoutUpdate) :=
  match computeUpdates workouts draggedId target with
  | none => none
  | some us => if us.isEmpty then none else some us

/-- The day an update pertains to: its explicit new `date` when present,
otherwise the current date of the workout it addresses. -/
def updateDay (workouts : List Workout) (u : WorkoutUpdate) : Option Nat :=
  match u.date with
  | some d => some d
  | none => (workouts.find? (fun w => decide (w.id = u.id))).map (·.date)

/-- The part of a plan that touches calendar day `d`. -/
def planForDay (workouts : List Workout) (plan : List WorkoutUpdate) (d : Nat) :
    List WorkoutUpdate :=
  plan.filter (fun u => decide (updateDay workouts u = some d))

/-! ### Basic lemmas about the embedding -/

theorem ordersFrom_length (k : Nat) (f : Workout → Option Nat) (l : List Workout) :
    (ordersFrom k f l).length = l.length := by
  induction l generalizing k with
  | nil => rfl
  | cons w ws ih => simp [ordersFrom, ih]

theorem ordersFrom_map_order (k : Nat) (f : Workout → Option Nat) (l : List Workout) :
    (ordersFrom k f l).map (fun u => u.order) = List.range' k l.length := by
  induction l generalizing k with
  | nil => rfl
  | cons w ws ih => simp [ordersFrom, List.range'_succ, ih]

theorem ordersFrom_map_id (k : Nat) (f : Workout → Option Nat) (l : List Workout) :
    (ordersFrom k f l).map (fun u => u.id) = l.map (fun w => w.id) := by
  induction l generalizing k with
  | nil => rfl
  | cons w ws ih => simp [ordersFrom, ih]

theorem mem_ordersFrom (k : Nat) (f : Workout → Option Nat) (l : List Workout)
    (u : WorkoutUpdate) (hu : u ∈ ordersFrom k f l) :
    ∃ w ∈ l, u.id = w.id ∧ u.date = f w := by
  induction l generalizing k with
  | nil => cases hu
  | cons w ws ih =>
    rw [ordersFrom] at hu
    rcases List.mem_cons.mp hu with hu | hu
    · subst hu; exact ⟨w, List.mem_cons_self w ws, rfl, rfl⟩
    · obtain ⟨w', hw', h1, h2⟩ := ih (k + 1) hu
      exact ⟨w', List.mem_cons_of_mem w hw', h1, h2⟩

/-- When every element's `order` already equals its position, the emitted
updates simply restate each workout's current order. -/
theorem ordersFrom_of_dense (k : Nat) (f : Workout → Option Nat) (l : List Workout)
    (h : l.map (fun w => w.order) = List.range' k l.length) :
    ordersFrom k f l = l.map (fun w => ⟨w.id, w.order, f w⟩) := by
  induction l generalizing k with
  | nil => rfl
  | cons w ws ih =>
    simp only [List.map_cons, List.length_cons, List.range'_succ, List.cons.injEq] at h
    simp [ordersFrom, h.1, ih (k + 1) h.2]

theorem findIdx?_lt_length {p : Workout → Bool} {l : List Workout} {i : Nat}
    (h : l.findIdx? p = some i) : i < l.length := by
  obtain ⟨h1, -⟩ := List.findIdx?_eq_some_iff_getElem.mp h
  exact h1

theorem arrayMove_length {l : List Workout} {i : Nat} (j : Nat) (h : i < l.length) :
    (arrayMove l i j).length = l.length := by
  unfold arrayMove
  rw [List.getElem?_eq_getElem h]
  simp only
  rw [List.length_insertIdx _ _ (Nat.min_le_right _ _), List.length_eraseIdx_of_lt h]
  omega

theorem insertIdx_eraseIdx_self {l : List Workout} {i : Nat} (h : i < l.length) :
    (l.eraseIdx i).insertIdx i l[i] = l := by
  induction l generalizing i with
  | nil => cases h
  | cons w ws ih =>
    cases i with
    | zero => rfl
    | succ i =>
      have h' : i < ws.length := Nat.lt_of_succ_lt_succ h
      simp [List.eraseIdx, List.insertIdx_succ_cons, ih h']

/-- Moving an element onto its own index leaves the list unchanged. -/
theorem arrayMove_self {l : List Workout} {i : Nat} (h : i < l.length) :
    arrayMove l i i = l := by
  unfold arrayMove
  rw [List.getElem?_eq_getElem h]
  simp only
  have hmin : min i (l.eraseIdx i).length = i := by
    rw [List.length_eraseIdx_of_lt h]; omega
  rw [hmin, insertIdx_eraseIdx_self h]

theorem mem_ordersFrom_idx (k : Nat) (f : Workout → Option Nat) (l : List Workout)
    (u : WorkoutUpdate) (hu : u ∈ ordersFrom k f l) :
    ∃ i, ∃ h : i < l.length, u = ⟨l[i].id, k + i, f l[i]⟩ := by
  induction l generalizing k with
  | nil => cases hu
  | cons w ws ih =>
    rw [ordersFrom] at hu
    rcases List.mem_cons.mp hu with hu | hu
    · exact ⟨0, Nat.succ_pos _, by simpa using hu⟩
    · obtain ⟨i, h, he⟩ := ih (k + 1) hu
      exact ⟨i + 1, Nat.succ_lt_succ h, by simpa [Nat.add_assoc, Nat.add_comm 1 i] using he⟩

theorem ordersFrom_mem_of_idx (k : Nat) (f : Workout → Option Nat) (l : List Workout)
    (i : Nat) (h : i < l.length) :
    (⟨l[i].id, k + i, f l[i]⟩ : WorkoutUpdate) ∈ ordersFrom k f l := by
  induction l generalizing k i with
  | nil => cases h
  | cons w ws ih =>
    cases i with
    | zero => simp [ordersFrom]
    | succ i =>
      rw [ordersFrom]
      refine List.mem_cons_of_mem _ ?_
      have := ih (k + 1) i (Nat.lt_of_succ_lt_succ h)
      simpa [Nat.add_assoc, Nat.add_comm 1 i] using this

/-- Membership in a day bucket means: in the collection, on that day. -/
theorem mem_getWorkoutsForDay {workouts : List Workout} {d : Nat} {w : Workout} :
    w ∈ getWorkoutsForDay workouts d ↔ w ∈ workouts ∧ w.date = d := by
  rw [getWorkoutsForDay, List.mem_insertionSort, List.mem_filter]
  simp

/-- With globally distinct ids, two stored workouts sharing an id are the
same workout. -/
theorem eq_of_id_eq {workouts : List Workout}
    (hids : (workouts.map (fun w => w.id)).Nodup)
    {w w' : Workout} (hw : w ∈ workouts) (hw' : w' ∈ workouts) (h : w.id = w'.id) :
    w = w' :=
  List.inj_on_of_nodup_map hids hw hw' h

theorem find?_id_eq {workouts : List Workout} {x : Nat} {w : Workout}
    (h : workouts.find? (fun w => decide (w.id = x)) = some w) :
    w ∈ workouts ∧ w.id = x := by
  refine ⟨List.mem_of_find?_eq_some h, ?_⟩
  have := List.find?_some h
  simpa using this

/-- With distinct ids, looking a stored workout up by its own id finds
exactly it. -/
theorem find?_of_mem_unique {workouts : List Workout}
    (hids : (workouts.map (fun w => w.id)).Nodup)
    {w : Workout} (hw : w ∈ workouts) :
    workouts.find? (fun x => decide (x.id = w.id)) = some w := by
  have hsome : (workouts.find? (fun x => decide (x.id = w.id))).isSome := by
    rw [List.find?_isSome]
    exact ⟨w, hw, by simp⟩
  obtain ⟨w', hw'⟩ := Option.isSome_iff_exists.mp hsome
  obtain ⟨hmem, hid⟩ := find?_id_eq hw'
  rw [hw', eq_of_id_eq hids hmem hw hid]

theorem insertIdx_perm (l : List Workout) (a : Workout) (k : Nat) (h : k ≤ l.length) :
    (l.insertIdx k a).Perm (a :: l) := by
  induction l generalizing k with
  | nil =>
    cases Nat.le_zero.mp h
    exact List.Perm.refl _
  | cons w ws ih =>
    cases k with
    | zero => exact List.Perm.refl _
    | succ k =>
      rw [List.insertIdx_succ_cons]
      exact (List.Perm.cons w (ih k (Nat.le_of_succ_le_succ h))).trans
        (List.Perm.swap a w ws)

theorem eraseIdx_cons_perm (l : List Workout) (i : Nat) (h : i < l.length) :
    l.Perm (l[i] :: l.eraseIdx i) := by
  induction l generalizing i with
  | nil => cases h
  | cons w ws ih =>
    cases i with
    | zero => exact List.Perm.refl _
    | succ i =>
      have h' : i < ws.length := Nat.lt_of_succ_lt_succ h
      have hp : (w :: ws).Perm (ws[i] :: w :: ws.eraseIdx i) :=
        (List.Perm.cons w (ih i h')).trans (List.Perm.swap _ _ _)
      simpa using hp

/-- Ids stay distinct when restricting to one day's sorted bucket. -/
theorem nodup_ids_getWorkoutsForDay {workouts : List Workout}
    (hids : (workouts.map (fun w => w.id)).Nodup) (d : Nat) :
    ((getWorkoutsForDay workouts d).map (fun w => w.id)).Nodup := by
  have hperm : (getWorkoutsForDay workouts d).Perm
      (workouts.filter (fun w => decide (w.date = d))) :=
    List.perm_insertionSort _ _
  have hsub : List.Sublist
      ((workouts.filter (fun w => decide (w.date = d))).map (fun w => w.id))
      (workouts.map (fun w => w.id)) :=
    (List.filter_sublist _).map _
  exact ((hperm.map _).nodup_iff).mpr (hsub.nodup hids)

theorem crossInsertIndex_le (destinationWorkouts : List Workout) (target : DropTarget) :
    crossInsertIndex destinationWorkouts target ≤ destinationWorkouts.length := by
  cases target with
  | day d => exact Nat.le_refl _
  | workout tid =>
    simp only [crossInsertIndex]
    cases h : destinationWorkouts.findIdx? (fun w => decide (w.id = tid)) with
    | none => exact Nat.le_refl _
    | some ti => exact Nat.le_of_lt (findIdx?_lt_length h)

/-! ### Concrete example data -/

/-- Workout A: first on day 10. -/
def exA : Workout := ⟨1, .Bike, "A", "", 60, 10, 0, none, 7⟩
/-- Workout B: second on day 10. -/
def exB : Workout := ⟨2, .Run, "B", "", 30, 10, 1, none, 7⟩
/-- Workout C: third on day 10. -/
def exC : Workout := ⟨3, .Swim, "C", "", 45, 10, 2, none, 7⟩
/-- Workout D: fourth on day 10. -/
def exD : Workout := ⟨4, .Bike, "D", "", 90, 10, 3, none, 7⟩
/-- Workout E: alone on day 11. -/
def exE : Workout := ⟨5, .Run, "E", "", 60, 11, 0, none, 7⟩

/-- A day holding the sequence `[A, B, C, D]`. -/
def fourDay : List Workout := [exA, exB, exC, exD]

/-- Days `[A, B, C, D]` on day 10 plus `[E]` on day 11. -/
def fiveDay : List Workout := fourDay ++ [exE]

/-- A day whose `order` values have a gap (`0` and `2`), as left behind by
deleting the middle workout of a dense day. -/
def gapDay : List Workout :=
  [⟨1, .Bike, "A", "", 60, 10, 0, none, 7⟩, ⟨2, .Run, "B", "", 30, 10, 2, none, 7⟩]

/-! ### Same-day reordering -/

/-- Helper: a successful same-day `handleDragEnd` reduces to the
array-move of the sorted day list. -/
theorem computeUpdates_sameDay
    (workouts : List Workout) (draggedId tid : Nat) (dragged t : Workout) (si ti : Nat)
    (hw : workouts.find? (fun w => decide (w.id = draggedId)) = some dragged)
    (ht : workouts.find? (fun w => decide (w.id = tid)) = some t)
    (hsame : t.date = dragged.date)
    (hsi : (getWorkoutsForDay workouts dragged.date).findIdx?
        (fun w => decide (w.id = draggedId)) = some si)
    (hti : (getWorkoutsForDay workouts dragged.date).findIdx?
        (fun w => decide (w.id = tid)) = some ti) :
    computeUpdates workouts draggedId (DropTarget.workout tid)
      = some (ordersFrom 0 (fun _ => none)
          (arrayMove (getWorkoutsForDay workouts dragged.date) si ti)) := by
  unfold computeUpdates resolveDestDate
  rw [hw]
  simp only [ht, hsame]
  rw [if_pos trivial]
  simp only [hsi, hti]

/--
C2 (amended): dropping a dragged workout on another workout of the same
day emits the plan obtained by removing the dragged item and re-inserting
it at the target's index of the shortened list (dnd-kit `arrayMove`), so
on `[A,B,C,D]` dragging `A` onto `C` yields orders `B:0, C:1, A:2, D:3`;
no update of the plan carries a date field.
-/
theorem sameDay_move_is_arrayMove
    (workouts : List Workout) (draggedId tid : Nat) (dragged t : Workout) (si ti : Nat)
    (hw : workouts.find? (fun w => decide (w.id = draggedId)) = some dragged)
    (ht : workouts.find? (fun w => decide (w.id = tid)) = some t)
    (hsame : t.date = dragged.date)
    (hsi : (getWorkoutsForDay workouts dragged.date).findIdx?
        (fun w => decide (w.id = draggedId)) = some si)
    (hti : (getWorkoutsForDay workouts dragged.date).findIdx?
        (fun w => decide (w.id = tid)) = some ti) :
    handleDragEnd workouts draggedId (DropTarget.workout tid)
      = some (ordersFrom 0 (fun _ => none)
          (arrayMove (getWorkoutsForDay workouts dragged.date) si ti))
    ∧ ∀ u ∈ ordersFrom 0 (fun _ => none)
          (arrayMove (getWorkoutsForDay workouts dragged.date) si ti),
        u.date = none := by
  have hcu := computeUpdates_sameDay workouts draggedId tid dragged t si ti
    hw ht hsame hsi hti
  have hlen : (ordersFrom 0 (fun _ => none)
      (arrayMove (getWorkoutsForDay workouts dragged.date) si ti)).length
      = (getWorkoutsForDay workouts dragged.date).length := by
    rw [ordersFrom_length, arrayMove_length ti (findIdx?_lt_length hsi)]
  have hpos : 0 < (getWorkoutsForDay workouts dragged.date).length :=
    Nat.lt_of_le_of_lt (Nat.zero_le si) (findIdx?_lt_length hsi)
  constructor
  · rw [handleDragEnd, hcu]
    have hne : (ordersFrom 0 (fun _ => none)
        (arrayMove (getWorkoutsForDay workouts dragged.date) si ti)).isEmpty = false := by
      rcases h : (ordersFrom 0 (fun _ => none)
          (arrayMove (getWorkoutsForDay workouts dragged.date) si ti)).isEmpty with _ | _
      · rfl
      · rw [List.isEmpty_iff] at h
        rw [h] at hlen
        simp at hlen
        omega
    simp [hne]
  · intro u hu
    obtain ⟨w, -, -, hd⟩ := mem_ordersFrom _ _ _ u hu
    exact hd

/-- C2 witness: the amended behaviour at the concrete `[A,B,C,D]` day,
dragging `A` onto `C`. -/
theorem sameDay_move_is_arrayMove_witness :
    handleDragEnd fourDay 1 (DropTarget.workout 3)
      = some (ordersFrom 0 (fun _ => none) (arrayMove (getWorkoutsForDay fourDay 10) 0 2))
    ∧ ∀ u ∈ ordersFrom 0 (fun _ => none) (arrayMove (getWorkoutsForDay fourDay 10) 0 2),
        u.date = none :=
  sameDay_move_is_arrayMove fourDay 1 3 exA exC 0 2 (by decide) (by decide) (by decide)
    (by decide) (by decide)

/-- C2 counterexample: on the day `[A,B,C,D]` (orders `0..3`), dragging
`A` onto `C` actually produces orders `B:0, C:1, A:2, D:3`, not the
claimed `B:0, A:1, C:2, D:3`. -/
theorem sameDay_move_claim_counterexample :
    handleDragEnd fourDay 1 (DropTarget.workout 3)
      = some [⟨2, 0, none⟩, ⟨3, 1, none⟩, ⟨1, 2, none⟩, ⟨4, 3, none⟩]
    ∧ handleDragEnd fourDay 1 (DropTarget.workout 3)
      ≠ some [⟨2, 0, none⟩, ⟨1, 1, none⟩, ⟨3, 2, none⟩, ⟨4, 3, none⟩] := by
  decide

/-! ### Missing drop target (C7) -/

/--
C7 (amended): when a drag is dropped on a workout id that does not exist
in the current collection, `handleDragEnd` aborts the gesture silently:
no update plan is emitted at all (there is no fallback to the end of the
source day in the current handler).
-/
theorem target_missing_aborts (workouts : List Workout) (draggedId tid : Nat)
    (h : workouts.find? (fun w => decide (w.id = tid)) = none) :
    handleDragEnd workouts draggedId (DropTarget.workout tid) = none := by
  unfold handleDragEnd computeUpdates resolveDestDate
  cases hf : workouts.find? (fun w => decide (w.id = draggedId)) with
  | none => rfl
  | some dragged => simp only [h]

/-- C7 witness: dropping workout `1` of the concrete collection onto the
unknown workout id `99` emits nothing. -/
theorem target_missing_aborts_witness :
    handleDragEnd fourDay 1 (DropTarget.workout 99) = none :=
  target_missing_aborts fourDay 1 99 (by decide)

/-- C7 counterexample: with dragged workout `1` present on day `10`
(which holds four workouts) and drop target id `99` absent, the handler
emits no plan — so it does not fall back to "end of the source day"
(which would emit a four-entry plan ending with the dragged workout). -/
theorem target_missing_claim_counterexample :
    handleDragEnd fourDay 1 (DropTarget.workout 99) = none
    ∧ (∀ plan : List WorkoutUpdate,
        handleDragEnd fourDay 1 (DropTarget.workout 99) ≠ some plan) := by
  refine ⟨by decide, ?_⟩
  intro plan h
  rw [show handleDragEnd fourDay 1 (DropTarget.workout 99) = none from by decide] at h
  cases h

/-! ### Dropping a workout onto itself (C9) -/

/--
C9 (amended): dropping a workout onto itself (or onto any target
resolving to the index it already occupies) on a day whose `order`
values are already dense (`0..n-1` along the sorted day list) emits a
plan that restates every workout's current order with no date changes —
a no-op. (On a day with gapped orders the handler instead re-packs the
day, changing order values while preserving the relative sequence.)
-/
theorem selfDrop_noop
    (workouts : List Workout) (draggedId tid : Nat) (dragged t : Workout) (si : Nat)
    (hw : workouts.find? (fun w => decide (w.id = draggedId)) = some dragged)
    (ht : workouts.find? (fun w => decide (w.id = tid)) = some t)
    (hsame : t.date = dragged.date)
    (hsi : (getWorkoutsForDay workouts dragged.date).findIdx?
        (fun w => decide (w.id = draggedId)) = some si)
    (hti : (getWorkoutsForDay workouts dragged.date).findIdx?
        (fun w => decide (w.id = tid)) = some si)
    (hdense : (getWorkoutsForDay workouts dragged.date).map (fun w => w.order)
        = List.range' 0 (getWorkoutsForDay workouts dragged.date).length) :
    handleDragEnd workouts draggedId (DropTarget.workout tid)
      = some ((getWorkoutsForDay workouts dragged.date).map
          (fun w => ⟨w.id, w.order, none⟩)) := by
  have h1 := (sameDay_move_is_arrayMove workouts draggedId tid dragged t si si
    hw ht hsame hsi hti).1
  rw [h1, arrayMove_self (findIdx?_lt_length hsi), ordersFrom_of_dense 0 _ _ hdense]

/-- C9 witness: on the dense day `[A,B,C,D]`, dropping `A` onto itself
emits the identity plan. -/
theorem selfDrop_noop_witness :
    handleDragEnd fourDay 1 (DropTarget.workout 1)
      = some ((getWorkoutsForDay fourDay 10).map (fun w => ⟨w.id, w.order, none⟩)) :=
  selfDrop_noop fourDay 1 1 exA exA 0 (by decide) (by decide) (by decide) (by decide)
    (by decide) (by decide)

/-- C9 counterexample: on a day whose orders are `0` and `2` (a gap, as
deletion leaves behind), dropping workout `1` onto itself emits a plan
that changes workout `2`'s order from `2` to `1` — not an
orders-unchanged no-op. -/
theorem selfDrop_claim_counterexample :
    handleDragEnd gapDay 1 (DropTarget.workout 1)
      = some [⟨1, 0, none⟩, ⟨2, 1, none⟩]
    ∧ ¬ (∀ u ∈ [(⟨1, 0, none⟩ : WorkoutUpdate), ⟨2, 1, none⟩],
          ∀ w ∈ gapDay, w.id = u.id → u.order = w.order) := by
  decide

/-! ### Cross-day moves -/

/-- The dragged workout has an index in its own (non-empty) day bucket. -/
theorem source_findIdx_exists {workouts : List Workout} {draggedId : Nat} {dragged : Workout}
    (hw : workouts.find? (fun w => decide (w.id = draggedId)) = some dragged) :
    ∃ si, (getWorkoutsForDay workouts dragged.date).findIdx?
        (fun w => decide (w.id = draggedId)) = some si := by
  obtain ⟨hmem, hid⟩ := find?_id_eq hw
  have hmem2 : dragged ∈ getWorkoutsForDay workouts dragged.date :=
    mem_getWorkoutsForDay.mpr ⟨hmem, rfl⟩
  have hsome : ((getWorkoutsForDay workouts dragged.date).findIdx?
      (fun w => decide (w.id = draggedId))).isSome := by
    rw [List.findIdx?_isSome, List.any_eq_true]
    exact ⟨dragged, hmem2, by simp [hid]⟩
  exact Option.isSome_iff_exists.mp hsome

/-- Helper: the cross-day branch of `handleDragEnd`, written out. -/
theorem crossDay_plan_eq
    (workouts : List Workout) (draggedId : Nat) (target : DropTarget)
    (dragged : Workout) (dd si : Nat) (plan : List WorkoutUpdate)
    (hw : workouts.find? (fun w => decide (w.id = draggedId)) = some dragged)
    (hdest : resolveDestDate workouts target = some dd)
    (hdiff : dragged.date ≠ dd)
    (hsi : (getWorkoutsForDay workouts dragged.date).findIdx?
        (fun w => decide (w.id = draggedId)) = some si)
    (h : handleDragEnd workouts draggedId target = some plan) :
    plan = ordersFrom 0 (fun _ => none)
          ((getWorkoutsForDay workouts dragged.date).eraseIdx si)
        ++ ordersFrom 0 (fun w => if w.id = draggedId then some dd else none)
          ((getWorkoutsForDay workouts dd).insertIdx
            (crossInsertIndex (getWorkoutsForDay workouts dd) target)
            { dragged with date := dd }) := by
  have hcu : computeUpdates workouts draggedId target
      = some (ordersFrom 0 (fun _ => none)
            ((getWorkoutsForDay workouts dragged.date).eraseIdx si)
          ++ ordersFrom 0 (fun w => if w.id = draggedId then some dd else none)
            ((getWorkoutsForDay workouts dd).insertIdx
              (crossInsertIndex (getWorkoutsForDay workouts dd) target)
              { dragged with date := dd })) := by
    unfold computeUpdates
    rw [hw]
    simp only [hdest]
    rw [if_neg hdiff]
    simp only [hsi]
  rw [handleDragEnd, hcu] at h
  have hlen : ((getWorkoutsForDay workouts dd).insertIdx
      (crossInsertIndex (getWorkoutsForDay workouts dd) target)
      { dragged with date := dd }).length = (getWorkoutsForDay workouts dd).length + 1 :=
    List.length_insertIdx _ _ (crossInsertIndex_le _ _)
  have hnil : ordersFrom 0 (fun _ => none)
          ((getWorkoutsForDay workouts dragged.date).eraseIdx si)
        ++ ordersFrom 0 (fun w => if w.id = draggedId then some dd else none)
          ((getWorkoutsForDay workouts dd).insertIdx
            (crossInsertIndex (getWorkoutsForDay workouts dd) target)
            { dragged with date := dd }) ≠ [] := by
    intro hnil
    have hlen2 := congrArg List.length hnil
    rw [List.length_append, ordersFrom_length, ordersFrom_length, hlen] at hlen2
    simp at hlen2
  simp only [List.isEmpty_eq_false.mpr hnil, Bool.false_eq_true, if_false,
    Option.some.injEq] at h
  exact h.symm

/-- No workout on a day other than the dragged one's day bears the
dragged id (given globally distinct ids). -/
theorem no_dragged_on_other_day
    {workouts : List Workout} {draggedId : Nat} {dragged : Workout} {dd : Nat}
    (hids : (workouts.map (fun w => w.id)).Nodup)
    (hw : workouts.find? (fun w => decide (w.id = draggedId)) = some dragged)
    (hdiff : dragged.date ≠ dd) :
    ∀ w ∈ getWorkoutsForDay workouts dd, w.id ≠ draggedId := by
  intro w hmem hid
  obtain ⟨hwmem, hwdate⟩ := mem_getWorkoutsForDay.mp hmem
  obtain ⟨hdm, hdi⟩ := find?_id_eq hw
  have hwd : w = dragged := eq_of_id_eq hids hwmem hdm (by rw [hid, hdi])
  exact hdiff (hwd ▸ hwdate)

/-- The found source index points at the dragged workout itself. -/
theorem source_getElem_dragged
    {workouts : List Workout} {draggedId : Nat} {dragged : Workout} {si : Nat}
    (hids : (workouts.map (fun w => w.id)).Nodup)
    (hw : workouts.find? (fun w => decide (w.id = draggedId)) = some dragged)
    (hsi : (getWorkoutsForDay workouts dragged.date).findIdx?
        (fun w => decide (w.id = draggedId)) = some si) :
    ∃ h : si < (getWorkoutsForDay workouts dragged.date).length,
      (getWorkoutsForDay workouts dragged.date)[si] = dragged := by
  obtain ⟨hlt, hp, -⟩ := List.findIdx?_eq_some_iff_getElem.mp hsi
  refine ⟨hlt, ?_⟩
  obtain ⟨hdm, hdi⟩ := find?_id_eq hw
  have hmem : (getWorkoutsForDay workouts dragged.date)[si]
      ∈ getWorkoutsForDay workouts dragged.date := List.getElem_mem hlt
  have hide : (getWorkoutsForDay workouts dragged.date)[si].id = draggedId :=
    of_decide_eq_true hp
  exact eq_of_id_eq hids (mem_getWorkoutsForDay.mp hmem).1 hdm (by rw [hide, hdi])

/-- After removing the dragged workout from its day, no remaining workout
of that day bears the dragged id. -/
theorem no_dragged_in_erased
    {workouts : List Workout} {draggedId : Nat} {dragged : Workout} {si : Nat}
    (hids : (workouts.map (fun w => w.id)).Nodup)
    (hw : workouts.find? (fun w => decide (w.id = draggedId)) = some dragged)
    (hsi : (getWorkoutsForDay workouts dragged.date).findIdx?
        (fun w => decide (w.id = draggedId)) = some si) :
    ∀ w ∈ (getWorkoutsForDay workouts dragged.date).eraseIdx si, w.id ≠ draggedId := by
  intro w hmem hid
  obtain ⟨hlt, hgd⟩ := source_getElem_dragged hids hw hsi
  have hwS : w ∈ getWorkoutsForDay workouts dragged.date := List.mem_of_mem_eraseIdx hmem
  obtain ⟨hdm, hdi⟩ := find?_id_eq hw
  have hwd : w = dragged :=
    eq_of_id_eq hids (mem_getWorkoutsForDay.mp hwS).1 hdm (by rw [hid, hdi])
  have hnodupS : (getWorkoutsForDay workouts dragged.date).Nodup :=
    List.Nodup.of_map _ (nodup_ids_getWorkoutsForDay hids _)
  have hnodup2 : ((getWorkoutsForDay workouts dragged.date)[si]
      :: (getWorkoutsForDay workouts dragged.date).eraseIdx si).Nodup :=
    (eraseIdx_cons_perm (getWorkoutsForDay workouts dragged.date) si hlt).nodup hnodupS
  have hnotmem : (getWorkoutsForDay workouts dragged.date)[si]
      ∉ (getWorkoutsForDay workouts dragged.date).eraseIdx si :=
    (List.nodup_cons.mp hnodup2).1
  rw [hgd] at hnotmem
  exact hnotmem (hwd ▸ hmem)

/-- Elements moved around by `arrayMove` all come from the original
list. -/
theorem mem_arrayMove {l : List Workout} {i j : Nat} (h : i < l.length) {w : Workout}
    (hm : w ∈ arrayMove l i j) : w ∈ l := by
  unfold arrayMove at hm
  rw [List.getElem?_eq_getElem h] at hm
  simp only at hm
  rcases (List.mem_insertIdx (Nat.min_le_right _ _)).mp hm with rfl | hm
  · exact List.getElem_mem h
  · exact List.mem_of_mem_eraseIdx hm

/-- An update list without date fields built over workouts of one day
pertains entirely to that day. -/
theorem updateDay_of_day_subset
    {workouts : List Workout} (hids : (workouts.map (fun w => w.id)).Nodup)
    {l : List Workout} {c : Nat}
    (hl : ∀ w ∈ l, w ∈ workouts ∧ w.date = c) :
    ∀ u ∈ ordersFrom 0 (fun _ => none) l, updateDay workouts u = some c := by
  intro u hu
  obtain ⟨w, hwmem, hid, hdate⟩ := mem_ordersFrom _ _ _ u hu
  obtain ⟨hwws, hwdate⟩ := hl w hwmem
  simp only [updateDay, hdate, hid, find?_of_mem_unique hids hwws, Option.map_some]
  simp [hwdate]

/-- A plan whose updates all pertain to day `c` filters to itself on `c`
and to nothing on any other day. -/
theorem planForDay_of_const
    {workouts : List Workout} {us : List WorkoutUpdate} {c : Nat}
    (h : ∀ u ∈ us, updateDay workouts u = some c) (d : Nat) :
    planForDay workouts us d = if c = d then us else [] := by
  by_cases hc : c = d
  · subst hc
    rw [if_pos rfl, planForDay]
    refine List.filter_eq_self.mpr ?_
    intro u hu
    simp [h u hu]
  · rw [if_neg hc, planForDay]
    refine List.filter_eq_nil_iff.mpr ?_
    intro u hu
    simp [h u hu, hc]

theorem planForDay_append (workouts : List Workout) (a b : List WorkoutUpdate) (d : Nat) :
    planForDay workouts (a ++ b) d = planForDay workouts a d ++ planForDay workouts b d :=
  List.filter_append _ _

/-- A workout of day `d` with id `x` guarantees `findIdx?` succeeds on
the day bucket. -/
theorem findIdx_exists_of_day
    {workouts : List Workout} {x : Nat} {t : Workout} {d : Nat}
    (hmem : t ∈ workouts) (hid : t.id = x) (hdate : t.date = d) :
    ∃ i, (getWorkoutsForDay workouts d).findIdx? (fun w => decide (w.id = x)) = some i := by
  have hmem2 : t ∈ getWorkoutsForDay workouts d :=
    mem_getWorkoutsForDay.mpr ⟨hmem, hdate⟩
  have hsome : ((getWorkoutsForDay workouts d).findIdx?
      (fun w => decide (w.id = x))).isSome := by
    rw [List.findIdx?_isSome, List.any_eq_true]
    exact ⟨t, hmem2, by simp [hid]⟩
  exact Option.isSome_iff_exists.mp hsome

/-- Helper: the same-day branch of `handleDragEnd`, written out. -/
theorem sameDay_plan_eq
    (workouts : List Workout) (draggedId tid : Nat) (dragged t : Workout) (si ti : Nat)
    (plan : List WorkoutUpdate)
    (hw : workouts.find? (fun w => decide (w.id = draggedId)) = some dragged)
    (ht : workouts.find? (fun w => decide (w.id = tid)) = some t)
    (hsame : t.date = dragged.date)
    (hsi : (getWorkoutsForDay workouts dragged.date).findIdx?
        (fun w => decide (w.id = draggedId)) = some si)
    (hti : (getWorkoutsForDay workouts dragged.date).findIdx?
        (fun w => decide (w.id = tid)) = some ti)
    (h : handleDragEnd workouts draggedId (DropTarget.workout tid) = some plan) :
    plan = ordersFrom 0 (fun _ => none)
        (arrayMove (getWorkoutsForDay workouts dragged.date) si ti) := by
  have hcu := computeUpdates_sameDay workouts draggedId tid dragged t si ti
    hw ht hsame hsi hti
  rw [handleDragEnd, hcu] at h
  rcases hE : (ordersFrom 0 (fun _ => none)
      (arrayMove (getWorkoutsForDay workouts dragged.date) si ti)).isEmpty with _ | _
  · simp only [hE, Bool.false_eq_true, if_false, Option.some.injEq] at h
    exact h.symm
  · simp only [hE, if_true] at h
    cases h

/-- Every destination-side update of a cross-day plan pertains to the
destination day. -/
theorem updateDay_destUpdates
    {workouts : List Workout} {draggedId : Nat} {dragged : Workout} {dd : Nat}
    (target : DropTarget)
    (hids : (workouts.map (fun w => w.id)).Nodup)
    (hw : workouts.find? (fun w => decide (w.id = draggedId)) = some dragged)
    (hdiff : dragged.date ≠ dd) :
    ∀ u ∈ ordersFrom 0 (fun w => if w.id = draggedId then some dd else none)
        ((getWorkoutsForDay workouts dd).insertIdx
          (crossInsertIndex (getWorkoutsForDay workouts dd) target)
          { dragged with date := dd }),
      updateDay workouts u = some dd := by
  intro u hu
  obtain ⟨w, hwmem, hid, hdate⟩ := mem_ordersFrom _ _ _ u hu
  obtain ⟨hdm, hdi⟩ := find?_id_eq hw
  rcases (List.mem_insertIdx (crossInsertIndex_le _ _)).mp hwmem with rfl | hwD
  · have hdate2 : u.date = some dd := by
      rw [hdate]
      exact if_pos hdi
    simp only [updateDay, hdate2]
  · have hne := no_dragged_on_other_day hids hw hdiff w hwD
    have hdate2 : u.date = none := by rw [hdate, if_neg hne]
    obtain ⟨hwws, hwdate⟩ := mem_getWorkoutsForDay.mp hwD
    simp only [updateDay, hdate2, hid, find?_of_mem_unique hids hwws, Option.map_some]
    simp [hwdate]

/--
C3: in a cross-day move (the resolved destination day differs from the
dragged workout's day), the emitted plan sets a date only on the dragged
workout — and that date is the destination day; the dragged workout's
update places it at the target workout's index in the destination day
(or at the end for a day-container drop); and every update addresses a
workout of one of the two affected days.
-/
theorem crossDay_move_frame
    (workouts : List Workout) (draggedId : Nat) (target : DropTarget)
    (dragged : Workout) (dd : Nat) (plan : List WorkoutUpdate)
    (hids : (workouts.map (fun w => w.id)).Nodup)
    (hw : workouts.find? (fun w => decide (w.id = draggedId)) = some dragged)
    (hdest : resolveDestDate workouts target = some dd)
    (hdiff : dragged.date ≠ dd)
    (h : handleDragEnd workouts draggedId target = some plan) :
    (∀ u ∈ plan, u.date ≠ none → u.id = draggedId ∧ u.date = some dd)
    ∧ (⟨draggedId, crossInsertIndex (getWorkoutsForDay workouts dd) target, some dd⟩ ∈ plan)
    ∧ (∀ u ∈ plan, u.id = draggedId →
        u = ⟨draggedId, crossInsertIndex (getWorkoutsForDay workouts dd) target, some dd⟩)
    ∧ (∀ u ∈ plan, u.id = draggedId
        ∨ u.id ∈ (getWorkoutsForDay workouts dragged.date).map (fun w => w.id)
        ∨ u.id ∈ (getWorkoutsForDay workouts dd).map (fun w => w.id)) := by
  obtain ⟨si, hsi⟩ := source_findIdx_exists hw
  have hplan := crossDay_plan_eq workouts draggedId target dragged dd si plan
    hw hdest hdiff hsi h
  obtain ⟨hdm, hdi⟩ := find?_id_eq hw
  have hkle := crossInsertIndex_le (getWorkoutsForDay workouts dd) target
  have hUlen : ((getWorkoutsForDay workouts dd).insertIdx
      (crossInsertIndex (getWorkoutsForDay workouts dd) target)
      { dragged with date := dd }).length = (getWorkoutsForDay workouts dd).length + 1 :=
    List.length_insertIdx _ _ hkle
  have hk2 : crossInsertIndex (getWorkoutsForDay workouts dd) target
      < ((getWorkoutsForDay workouts dd).insertIdx
        (crossInsertIndex (getWorkoutsForDay workouts dd) target)
        { dragged with date := dd }).length := by omega
  have hUk : ((getWorkoutsForDay workouts dd).insertIdx
      (crossInsertIndex (getWorkoutsForDay workouts dd) target)
      { dragged with date := dd })[crossInsertIndex (getWorkoutsForDay workouts dd) target]
      = { dragged with date := dd } :=
    List.getElem_insertIdx_self _ _ _ hkle
  subst hplan
  refine ⟨?_, ?_, ?_, ?_⟩
  · intro u hu hne
    rcases List.mem_append.mp hu with hu | hu
    · obtain ⟨w, hwmem, hid, hdate⟩ := mem_ordersFrom _ _ _ u hu
      exact absurd hdate hne
    · obtain ⟨w, hwmem, hid, hdate⟩ := mem_ordersFrom _ _ _ u hu
      by_cases hc : w.id = draggedId
      · exact ⟨hid.trans hc, by rw [hdate, if_pos hc]⟩
      · rw [hdate, if_neg hc] at hne
        exact absurd rfl hne
  · refine List.mem_append_right _ ?_
    have hmem := ordersFrom_mem_of_idx 0
      (fun w => if w.id = draggedId then some dd else none)
      ((getWorkoutsForDay workouts dd).insertIdx
        (crossInsertIndex (getWorkoutsForDay workouts dd) target)
        { dragged with date := dd })
      (crossInsertIndex (getWorkoutsForDay workouts dd) target) (by omega)
    rw [hUk] at hmem
    simpa [hdi] using hmem
  · intro u hu hidu
    rcases List.mem_append.mp hu with hu | hu
    · obtain ⟨w, hwmem, hid, hdate⟩ := mem_ordersFrom _ _ _ u hu
      exact absurd (hid.symm.trans hidu) (no_dragged_in_erased hids hw hsi w hwmem)
    · obtain ⟨i, hi, he⟩ := mem_ordersFrom_idx _ _ _ u hu
      have hUid : ((getWorkoutsForDay workouts dd).insertIdx
          (crossInsertIndex (getWorkoutsForDay workouts dd) target)
          { dragged with date := dd })[i].id = draggedId := by
        rw [he] at hidu
        exact hidu
      rcases Nat.lt_trichotomy i (crossInsertIndex (getWorkoutsForDay workouts dd) target)
        with hik | hik | hik
      · exfalso
        have hiD : i < (getWorkoutsForDay workouts dd).length := Nat.lt_of_lt_of_le hik hkle
        have := List.getElem_insertIdx_of_lt (getWorkoutsForDay workouts dd)
          { dragged with date := dd } (crossInsertIndex (getWorkoutsForDay workouts dd) target)
          i hik hiD
        rw [this] at hUid
        exact no_dragged_on_other_day hids hw hdiff _ (List.getElem_mem hiD) hUid
      · subst hik
        rw [he, hUk]
        simp [hdi]
      · exfalso
        obtain ⟨m, hm⟩ : ∃ m,
            i = crossInsertIndex (getWorkoutsForDay workouts dd) target + m + 1 :=
          ⟨i - crossInsertIndex (getWorkoutsForDay workouts dd) target - 1, by omega⟩
        subst hm
        have hmD : crossInsertIndex (getWorkoutsForDay workouts dd) target + m
            < (getWorkoutsForDay workouts dd).length := by
          rw [hUlen] at hi
          omega
        have := List.getElem_insertIdx_add_succ (getWorkoutsForDay workouts dd)
          { dragged with date := dd } (crossInsertIndex (getWorkoutsForDay workouts dd) target)
          m hmD
        rw [this] at hUid
        exact no_dragged_on_other_day hids hw hdiff _ (List.getElem_mem hmD) hUid
  · intro u hu
    rcases List.mem_append.mp hu with hu | hu
    · obtain ⟨w, hwmem, hid, -⟩ := mem_ordersFrom _ _ _ u hu
      exact Or.inr (Or.inl (List.mem_map.mpr
        ⟨w, List.mem_of_mem_eraseIdx hwmem, hid.symm⟩))
    · obtain ⟨w, hwmem, hid, -⟩ := mem_ordersFrom _ _ _ u hu
      rcases (List.mem_insertIdx hkle).mp hwmem with rfl | hwD
      · exact Or.inl (hid.trans hdi)
      · exact Or.inr (Or.inr (List.mem_map.mpr ⟨w, hwD, hid.symm⟩))

/-- C3 witness: moving workout `A` from day `10` onto workout `E` of day
`11` in the concrete five-workout collection. -/
theorem crossDay_move_frame_witness :
    (∀ u ∈ [(⟨2, 0, none⟩ : WorkoutUpdate), ⟨3, 1, none⟩, ⟨4, 2, none⟩,
        ⟨1, 0, some 11⟩, ⟨5, 1, none⟩], u.date ≠ none → u.id = 1 ∧ u.date = some 11)
    ∧ (⟨1, crossInsertIndex (getWorkoutsForDay fiveDay 11) (DropTarget.workout 5), some 11⟩
        ∈ [(⟨2, 0, none⟩ : WorkoutUpdate), ⟨3, 1, none⟩, ⟨4, 2, none⟩,
        ⟨1, 0, some 11⟩, ⟨5, 1, none⟩])
    ∧ (∀ u ∈ [(⟨2, 0, none⟩ : WorkoutUpdate), ⟨3, 1, none⟩, ⟨4, 2, none⟩,
        ⟨1, 0, some 11⟩, ⟨5, 1, none⟩], u.id = 1 →
        u = ⟨1, crossInsertIndex (getWorkoutsForDay fiveDay 11) (DropTarget.workout 5), some 11⟩)
    ∧ (∀ u ∈ [(⟨2, 0, none⟩ : WorkoutUpdate), ⟨3, 1, none⟩, ⟨4, 2, none⟩,
        ⟨1, 0, some 11⟩, ⟨5, 1, none⟩], u.id = 1
        ∨ u.id ∈ (getWorkoutsForDay fiveDay (exA).date).map (fun w => w.id)
        ∨ u.id ∈ (getWorkoutsForDay fiveDay 11).map (fun w => w.id)) :=
  crossDay_move_frame fiveDay 1 (DropTarget.workout 5) exA 11
    [⟨2, 0, none⟩, ⟨3, 1, none⟩, ⟨4, 2, none⟩, ⟨1, 0, some 11⟩, ⟨5, 1, none⟩]
    (by decide) (by decide) (by decide) (by decide) (by decide)

/--
C1: whenever `handleDragEnd` emits a (non-empty) plan, then for every
calendar day the orders the plan assigns to that day's updates are
exactly `0, 1, ..., n-1` in plan sequence — zero-based, gap-free,
duplicate-free, matching positions in the resulting day list; and on the
affected days the plan covers the full resulting day: the whole day for
a same-day reorder, one workout fewer on the source day and one more on
the destination day for a cross-day move.
-/
theorem reorder_plan_density
    (workouts : List Workout) (draggedId : Nat) (target : DropTarget)
    (dragged : Workout) (dd : Nat) (plan : List WorkoutUpdate)
    (hids : (workouts.map (fun w => w.id)).Nodup)
    (hw : workouts.find? (fun w => decide (w.id = draggedId)) = some dragged)
    (hdest : resolveDestDate workouts target = some dd)
    (h : handleDragEnd workouts draggedId target = some plan) :
    (∀ d, (planForDay workouts plan d).map (fun u => u.order)
        = List.range (planForDay workouts plan d).length)
    ∧ (dragged.date = dd →
        (planForDay workouts plan dragged.date).length
          = (getWorkoutsForDay workouts dragged.date).length)
    ∧ (dragged.date ≠ dd →
        (planForDay workouts plan dragged.date).length
            = (getWorkoutsForDay workouts dragged.date).length - 1
          ∧ (planForDay workouts plan dd).length
            = (getWorkoutsForDay workouts dd).length + 1) := by
  by_cases hsame : dragged.date = dd
  · cases target with
    | day d =>
      exfalso
      have hd : d = dd := by simpa [resolveDestDate] using hdest
      subst hd
      have hcu : computeUpdates workouts draggedId (DropTarget.day d) = some [] := by
        unfold computeUpdates
        rw [hw]
        simp [resolveDestDate, hsame]
      rw [handleDragEnd, hcu] at h
      simp at h
    | workout tid =>
      obtain ⟨t, ht, htd⟩ : ∃ t, workouts.find? (fun w => decide (w.id = tid)) = some t
          ∧ t.date = dd := by
        simp only [resolveDestDate] at hdest
        cases hft : workouts.find? (fun w => decide (w.id = tid)) with
        | none => simp [hft] at hdest
        | some t =>
          simp only [hft, Option.some.injEq] at hdest
          exact ⟨t, rfl, hdest⟩
      obtain ⟨si, hsi⟩ := source_findIdx_exists hw
      obtain ⟨ti, hti⟩ := findIdx_exists_of_day (find?_id_eq ht).1 (find?_id_eq ht).2
        (htd.trans hsame.symm)
      have hplan := sameDay_plan_eq workouts draggedId tid dragged t si ti plan
        hw ht (htd.trans hsame.symm) hsi hti h
      subst hplan
      have hsl := findIdx?_lt_length hsi
      have hml : (arrayMove (getWorkoutsForDay workouts dragged.date) si ti).length
          = (getWorkoutsForDay workouts dragged.date).length := arrayMove_length ti hsl
      have hconst : ∀ u ∈ ordersFrom 0 (fun _ => none)
          (arrayMove (getWorkoutsForDay workouts dragged.date) si ti),
          updateDay workouts u = some dragged.date := by
        apply updateDay_of_day_subset hids
        intro w hwmem
        exact mem_getWorkoutsForDay.mp (mem_arrayMove hsl hwmem)
      refine ⟨?_, ?_, ?_⟩
      · intro d
        rw [planForDay_of_const hconst d]
        by_cases hcd : dragged.date = d
        · rw [if_pos hcd, ordersFrom_map_order, ordersFrom_length, List.range_eq_range']
        · rw [if_neg hcd]; rfl
      · intro _
        rw [planForDay_of_const hconst dragged.date, if_pos rfl, ordersFrom_length, hml]
      · intro hne
        exact absurd hsame hne
  · obtain ⟨si, hsi⟩ := source_findIdx_exists hw
    have hplan := crossDay_plan_eq workouts draggedId target dragged dd si plan
      hw hdest hsame hsi h
    subst hplan
    have hsl := findIdx?_lt_length hsi
    have hkle := crossInsertIndex_le (getWorkoutsForDay workouts dd) target
    have hsuc : ∀ u ∈ ordersFrom 0 (fun _ => none)
        ((getWorkoutsForDay workouts dragged.date).eraseIdx si),
        updateDay workouts u = some dragged.date := by
      apply updateDay_of_day_subset hids
      intro w hwmem
      exact mem_getWorkoutsForDay.mp (List.mem_of_mem_eraseIdx hwmem)
    have hduc := updateDay_destUpdates target hids hw hsame
    have hsplit : ∀ d, planForDay workouts
        (ordersFrom 0 (fun _ => none)
            ((getWorkoutsForDay workouts dragged.date).eraseIdx si)
          ++ ordersFrom 0 (fun w => if w.id = draggedId then some dd else none)
            ((getWorkoutsForDay workouts dd).insertIdx
              (crossInsertIndex (getWorkoutsForDay workouts dd) target)
              { dragged with date := dd })) d
        = (if dragged.date = d then ordersFrom 0 (fun _ => none)
            ((getWorkoutsForDay workouts dragged.date).eraseIdx si) else [])
          ++ (if dd = d then ordersFrom 0
            (fun w => if w.id = draggedId then some dd else none)
            ((getWorkoutsForDay workouts dd).insertIdx
              (crossInsertIndex (getWorkoutsForDay workouts dd) target)
              { dragged with date := dd }) else []) := by
      intro d
      rw [planForDay_append, planForDay_of_const hsuc d, planForDay_of_const hduc d]
    refine ⟨?_, ?_, ?_⟩
    · intro d
      rw [hsplit d]
      by_cases h1 : dragged.date = d
      · rw [if_pos h1, if_neg (fun hx => hsame (h1.trans hx.symm).symm.symm)]
        rw [List.append_nil, ordersFrom_map_order, ordersFrom_length, List.range_eq_range']
      · rw [if_neg h1, List.nil_append]
        by_cases h2 : dd = d
        · rw [if_pos h2, ordersFrom_map_order, ordersFrom_length, List.range_eq_range']
        · rw [if_neg h2]; rfl
    · intro hx
      exact absurd hx hsame
    · intro _
      constructor
      · rw [hsplit dragged.date, if_pos rfl, if_neg (fun hx => hsame hx.symm),
          List.append_nil, ordersFrom_length, List.length_eraseIdx_of_lt hsl]
      · rw [hsplit dd, if_neg hsame, List.nil_append, if_pos rfl, ordersFrom_length,
          List.length_insertIdx _ _ hkle]

/-- C1 witness: the cross-day drag of workout `A` from day `10` onto
workout `E` of day `11` in the concrete five-workout collection. -/
theorem reorder_plan_density_witness :
    (∀ d, (planForDay fiveDay
        [(⟨2, 0, none⟩ : WorkoutUpdate), ⟨3, 1, none⟩, ⟨4, 2, none⟩,
          ⟨1, 0, some 11⟩, ⟨5, 1, none⟩] d).map (fun u => u.order)
        = List.range (planForDay fiveDay
        [(⟨2, 0, none⟩ : WorkoutUpdate), ⟨3, 1, none⟩, ⟨4, 2, none⟩,
          ⟨1, 0, some 11⟩, ⟨5, 1, none⟩] d).length)
    ∧ ((exA).date = 11 →
        (planForDay fiveDay
          [(⟨2, 0, none⟩ : WorkoutUpdate), ⟨3, 1, none⟩, ⟨4, 2, none⟩,
            ⟨1, 0, some 11⟩, ⟨5, 1, none⟩] (exA).date).length
          = (getWorkoutsForDay fiveDay (exA).date).length)
    ∧ ((exA).date ≠ 11 →
        (planForDay fiveDay
          [(⟨2, 0, none⟩ : WorkoutUpdate), ⟨3, 1, none⟩, ⟨4, 2, none⟩,
            ⟨1, 0, some 11⟩, ⟨5, 1, none⟩] (exA).date).length
            = (getWorkoutsForDay fiveDay (exA).date).length - 1
          ∧ (planForDay fiveDay
            [(⟨2, 0, none⟩ : WorkoutUpdate), ⟨3, 1, none⟩, ⟨4, 2, none⟩,
              ⟨1, 0, some 11⟩, ⟨5, 1, none⟩] 11).length
            = (getWorkoutsForDay fiveDay 11).length + 1) :=
  reorder_plan_density fiveDay 1 (DropTarget.workout 5) exA 11
    [⟨2, 0, none⟩, ⟨3, 1, none⟩, ⟨4, 2, none⟩, ⟨1, 0, some 11⟩, ⟨5, 1, none⟩]
    (by decide) (by decide) (by decide) (by decide)

/-! ### Weekly rollup engine (`WeeklySummary.tsx` / `useWeeklyData`) -/

/-- One entry of a sport's `byLabel` record: the key (`workout.labelId`,
with `none` modelling the `no-label` sentinel), the resolved display
name and color, and the accumulated hours. -/
structure LabelData where
  key : Option Nat
  name : String
  color : String
  duration : ℚ
deriving DecidableEq, Repr

/-- Per-sport rollup data: total hours and the `byLabel` record (an
insertion-ordered association list, keys unique by construction). -/
structure SportData where
  total : ℚ
  byLabel : List LabelData
deriving DecidableEq, Repr

/-- The `weeklyTotals` accumulator. -/
structure WeeklyTotals where
  swim : SportData
  bike : SportData
  run : SportData
  total : ℚ
deriving DecidableEq, Repr

/-- One entry of `dailyBreakdown`. -/
structure DayTotals where
  date : Nat
  swim : ℚ
  bike : ℚ
  run : ℚ
  total : ℚ
deriving DecidableEq, Repr

/-- Resolve a workout's label display data: the matching label's name
and color, else `Unlabeled` / white for a missing or dangling reference. -/
def resolveLabel (labels : List Label) (w : Workout) : String × String :=
  match w.labelId with
  | some lid =>
    match labels.find? (fun l => decide (l.id = lid)) with
    | some l => (l.name, l.color)
    | none => ("Unlabeled", "#FFFFFF")
  | none => ("Unlabeled", "#FFFFFF")

/-- Hours of one workout: `workout.duration / 60` (exact rationals in
place of floats). -/
def durationHours (w : Workout) : ℚ := (w.duration : ℚ) / 60

/-- The `byLabel[labelKey]` update: add `d` hours under `key`, creating the
entry (with the first-seen name and color) when absent. Keys are unique
in the record, so updating the first match is exact. -/
def bumpLabel (key : Option Nat) (nm col : String) (d : ℚ) :
    List LabelData → List LabelData
  | [] => [⟨key, nm, col, d⟩]
  | e :: es =>
    if e.key = key then { e with duration := e.duration + d } :: es
    else e :: bumpLabel key nm col d es

/-- The body of the `dayWorkouts.forEach` loop: accumulate one workout
into the weekly totals and the current day's totals. -/
def processWorkout (labels : List Label) (acc : WeeklyTotals × DayTotals) (w : Workout) :
    WeeklyTotals × DayTotals :=
  let wt := acc.1
  let dt := acc.2
  let dh := durationHours w
  let nc := resolveLabel labels w
  match w.type with
  | .Swim =>
    ({ wt with
        swim := ⟨wt.swim.total + dh, bumpLabel w.labelId nc.1 nc.2 dh wt.swim.byLabel⟩,
        total := wt.total + dh },
      { dt with swim := dt.swim + dh, total := dt.total + dh })
  | .Bike =>
    ({ wt with
        bike := ⟨wt.bike.total + dh, bumpLabel w.labelId nc.1 nc.2 dh wt.bike.byLabel⟩,
        total := wt.total + dh },
      { dt with bike := dt.bike + dh, total := dt.total + dh })
  | .Run =>
    ({ wt with
        run := ⟨wt.run.total + dh, bumpLabel w.labelId nc.1 nc.2 dh wt.run.byLabel⟩,
        total := wt.total + dh },
      { dt with run := dt.run + dh, total := dt.total + dh })

/-- One day of `dailyBreakdown`: filter the week's workouts to the exact
calendar day, then fold the per-workout accumulation into the running
weekly totals and a fresh all-zero day entry. -/
def processDay (labels : List Label) (weekWorkouts : List Workout) (day : Nat)
    (wt : WeeklyTotals) : WeeklyTotals × DayTotals :=
  (weekWorkouts.filter (fun w => decide (w.date = day))).foldl
    (processWorkout labels) (wt, ⟨day, 0, 0, 0, 0⟩)

/-- The all-zero initial `weeklyTotals`. -/
def emptyTotals : WeeklyTotals := ⟨⟨0, []⟩, ⟨0, []⟩, ⟨0, []⟩, 0⟩

/-- One iteration of the `daysOfWeek.map` walk: extend `dailyBreakdown`
by the day entry, carrying the accumulated weekly totals forward. -/
def weekStep (labels : List Label) (weekWorkouts : List Workout) (weekStart : Nat)
    (acc : WeeklyTotals × List DayTotals) (i : Nat) : WeeklyTotals × List DayTotals :=
  ((processDay labels weekWorkouts (weekStart + i) acc.1).1,
    acc.2 ++ [(processDay labels weekWorkouts (weekStart + i) acc.1).2])

/-- The weekly rollup of `WeeklySummary.tsx` / `useWeeklyData`: filter
to `[weekStart, weekStart + 6]`, walk the seven days building
`dailyBreakdown` while accumulating `weeklyTotals`, and compute
`maxValue = max(swim, bike, run, 1)`. -/
def weeklyRollup (weekStart : Nat) (workouts : List Workout) (labels : List Label) :
    WeeklyTotals × List DayTotals × ℚ :=
  let weekWorkouts := workouts.filter
    (fun w => decide (weekStart ≤ w.date ∧ w.date ≤ weekStart + 6))
  let r := (List.range 7).foldl (weekStep labels weekWorkouts weekStart)
    (emptyTotals, ([] : List DayTotals))
  (r.1, r.2, max r.1.swim.total (max r.1.bike.total (max r.1.run.total 1)))

/-- Total hours of a `byLabel` record. -/
def sumDur (l : List LabelData) : ℚ := (l.map (fun e => e.duration)).sum

/-- Total hours of a list of workouts. -/
def totalHours (l : List Workout) : ℚ := (l.map durationHours).sum

theorem bumpLabel_sum (key : Option Nat) (nm col : String) (d : ℚ) (l : List LabelData) :
    sumDur (bumpLabel key nm col d l) = sumDur l + d := by
  induction l with
  | nil => simp [bumpLabel, sumDur]
  | cons e es ih =>
    by_cases hk : e.key = key
    · simp [bumpLabel, hk, sumDur]
      ring
    · simp only [bumpLabel, if_neg hk]
      simp only [sumDur, List.map_cons, List.sum_cons] at ih ⊢
      rw [ih]
      ring

/-- The six bookkeeping identities of one `processWorkout` step. -/
theorem processWorkout_inv (labels : List Label) (acc : WeeklyTotals × DayTotals)
    (w : Workout) :
    (processWorkout labels acc w).1.total = acc.1.total + durationHours w
    ∧ (processWorkout labels acc w).2.total = acc.2.total + durationHours w
    ∧ (processWorkout labels acc w).1.swim.total + (processWorkout labels acc w).1.bike.total
          + (processWorkout labels acc w).1.run.total
        = acc.1.swim.total + acc.1.bike.total + acc.1.run.total + durationHours w
    ∧ sumDur (processWorkout labels acc w).1.swim.byLabel
          - (processWorkout labels acc w).1.swim.total
        = sumDur acc.1.swim.byLabel - acc.1.swim.total
    ∧ sumDur (processWorkout labels acc w).1.bike.byLabel
          - (processWorkout labels acc w).1.bike.total
        = sumDur acc.1.bike.byLabel - acc.1.bike.total
    ∧ sumDur (processWorkout labels acc w).1.run.byLabel
          - (processWorkout labels acc w).1.run.total
        = sumDur acc.1.run.byLabel - acc.1.run.total := by
  cases htype : w.type <;>
    simp [processWorkout, htype, bumpLabel_sum] <;>
    ring

/-- The same identities for a whole fold of workouts. -/
theorem foldWorkouts_inv (labels : List Label) (l : List Workout)
    (acc : WeeklyTotals × DayTotals) :
    (l.foldl (processWorkout labels) acc).1.total = acc.1.total + totalHours l
    ∧ (l.foldl (processWorkout labels) acc).2.total = acc.2.total + totalHours l
    ∧ (l.foldl (processWorkout labels) acc).1.swim.total
          + (l.foldl (processWorkout labels) acc).1.bike.total
          + (l.foldl (processWorkout labels) acc).1.run.total
        = acc.1.swim.total + acc.1.bike.total + acc.1.run.total + totalHours l
    ∧ sumDur (l.foldl (processWorkout labels) acc).1.swim.byLabel
          - (l.foldl (processWorkout labels) acc).1.swim.total
        = sumDur acc.1.swim.byLabel - acc.1.swim.total
    ∧ sumDur (l.foldl (processWorkout labels) acc).1.bike.byLabel
          - (l.foldl (processWorkout labels) acc).1.bike.total
        = sumDur acc.1.bike.byLabel - acc.1.bike.total
    ∧ sumDur (l.foldl (processWorkout labels) acc).1.run.byLabel
          - (l.foldl (processWorkout labels) acc).1.run.total
        = sumDur acc.1.run.byLabel - acc.1.run.total := by
  induction l generalizing acc with
  | nil => simp [totalHours]
  | cons w ws ih =>
    obtain ⟨p1, p2, p3, p4, p5, p6⟩ := processWorkout_inv labels acc w
    obtain ⟨q1, q2, q3, q4, q5, q6⟩ := ih (processWorkout labels acc w)
    have ht : totalHours (w :: ws) = durationHours w + totalHours ws := by
      simp [totalHours]
    refine ⟨?_, ?_, ?_, ?_, ?_, ?_⟩ <;>
      simp only [List.foldl_cons, ht] at * <;>
      first
      | (rw [q1, p1]; ring)
      | (rw [q2, p2]; ring)
      | (rw [q3, p3]; ring)
      | (rw [q4, p4])
      | (rw [q5, p5])
      | (rw [q6, p6])

/-- One `weekStep` preserves the reconciliation invariants and appends
exactly one day entry. -/
theorem weekStep_inv (labels : List Label) (weekWorkouts : List Workout)
    (weekStart : Nat) (acc : WeeklyTotals × List DayTotals) (i : Nat) :
    ((weekStep labels weekWorkouts weekStart acc i).2.map (fun d => d.total)).sum
          - ((weekStep labels weekWorkouts weekStart acc i).1.swim.total
            + (weekStep labels weekWorkouts weekStart acc i).1.bike.total
            + (weekStep labels weekWorkouts weekStart acc i).1.run.total)
        = (acc.2.map (fun d => d.total)).sum
          - (acc.1.swim.total + acc.1.bike.total + acc.1.run.total)
    ∧ sumDur (weekStep labels weekWorkouts weekStart acc i).1.swim.byLabel
          - (weekStep labels weekWorkouts weekStart acc i).1.swim.total
        = sumDur acc.1.swim.byLabel - acc.1.swim.total
    ∧ sumDur (weekStep labels weekWorkouts weekStart acc i).1.bike.byLabel
          - (weekStep labels weekWorkouts weekStart acc i).1.bike.total
        = sumDur acc.1.bike.byLabel - acc.1.bike.total
    ∧ sumDur (weekStep labels weekWorkouts weekStart acc i).1.run.byLabel
          - (weekStep labels weekWorkouts weekStart acc i).1.run.total
        = sumDur acc.1.run.byLabel - acc.1.run.total
    ∧ (weekStep labels weekWorkouts weekStart acc i).2.length = acc.2.length + 1 := by
  obtain ⟨f1, f2, f3, f4, f5, f6⟩ := foldWorkouts_inv labels
    (weekWorkouts.filter (fun w => decide (w.date = weekStart + i)))
    (acc.1, ⟨weekStart + i, 0, 0, 0, 0⟩)
  simp only [weekStep, processDay] at *
  refine ⟨?_, f4, f5, f6, by simp⟩
  simp only [List.map_append, List.sum_append, List.map_cons, List.map_nil,
    List.sum_cons, List.sum_nil]
  rw [f2, f3]
  ring

/-- Folding any run of days preserves the reconciliation invariants. -/
theorem weekFold_inv (labels : List Label) (weekWorkouts : List Workout)
    (weekStart : Nat) (idx : List Nat) (acc : WeeklyTotals × List DayTotals) :
    (((idx.foldl (weekStep labels weekWorkouts weekStart) acc).2.map
          (fun d => d.total)).sum
          - ((idx.foldl (weekStep labels weekWorkouts weekStart) acc).1.swim.total
            + (idx.foldl (weekStep labels weekWorkouts weekStart) acc).1.bike.total
            + (idx.foldl (weekStep labels weekWorkouts weekStart) acc).1.run.total)
        = (acc.2.map (fun d => d.total)).sum
          - (acc.1.swim.total + acc.1.bike.total + acc.1.run.total))
    ∧ sumDur (idx.foldl (weekStep labels weekWorkouts weekStart) acc).1.swim.byLabel
          - (idx.foldl (weekStep labels weekWorkouts weekStart) acc).1.swim.total
        = sumDur acc.1.swim.byLabel - acc.1.swim.total
    ∧ sumDur (idx.foldl (weekStep labels weekWorkouts weekStart) acc).1.bike.byLabel
          - (idx.foldl (weekStep labels weekWorkouts weekStart) acc).1.bike.total
        = sumDur acc.1.bike.byLabel - acc.1.bike.total
    ∧ sumDur (idx.foldl (weekStep labels weekWorkouts weekStart) acc).1.run.byLabel
          - (idx.foldl (weekStep labels weekWorkouts weekStart) acc).1.run.total
        = sumDur acc.1.run.byLabel - acc.1.run.total
    ∧ (idx.foldl (weekStep labels weekWorkouts weekStart) acc).2.length
        = acc.2.length + idx.length := by
  induction idx generalizing acc with
  | nil => simp
  | cons i is ih =>
    obtain ⟨p1, p2, p3, p4, p5⟩ := weekStep_inv labels weekWorkouts weekStart acc i
    obtain ⟨q1, q2, q3, q4, q5⟩ := ih (weekStep labels weekWorkouts weekStart acc i)
    simp only [List.foldl_cons, List.length_cons]
    exact ⟨q1.trans p1, q2.trans p2, q3.trans p3, q4.trans p4,
      by rw [q5, p5]; omega⟩

/--
C4: for every week start, workout collection and label collection, the
computed rollup reconciles: (a) the sum of the seven `dailyBreakdown`
entries' total hours equals swim total + bike total + run total, and
(b) per sport, the hours in the `byLabel` record sum to the sport's
total hours (exact rational equalities in place of float tolerance).
-/
theorem weeklyRollup_reconciles (weekStart : Nat) (workouts : List Workout)
    (labels : List Label) :
    ((weeklyRollup weekStart workouts labels).2.1.map (fun d => d.total)).sum
        = (weeklyRollup weekStart workouts labels).1.swim.total
          + (weeklyRollup weekStart workouts labels).1.bike.total
          + (weeklyRollup weekStart workouts labels).1.run.total
    ∧ (weeklyRollup weekStart workouts labels).2.1.length = 7
    ∧ sumDur (weeklyRollup weekStart workouts labels).1.swim.byLabel
        = (weeklyRollup weekStart workouts labels).1.swim.total
    ∧ sumDur (weeklyRollup weekStart workouts labels).1.bike.byLabel
        = (weeklyRollup weekStart workouts labels).1.bike.total
    ∧ sumDur (weeklyRollup weekStart workouts labels).1.run.byLabel
        = (weeklyRollup weekStart workouts labels).1.run.total := by
  obtain ⟨i1, i2, i3, i4, i5⟩ := weekFold_inv labels
    (workouts.filter (fun w => decide (weekStart ≤ w.date ∧ w.date ≤ weekStart + 6)))
    weekStart (List.range 7) (emptyTotals, [])
  simp only [emptyTotals, sumDur, List.map_nil, List.sum_nil, List.length_nil,
    List.length_range, Nat.zero_add] at i1 i2 i3 i4 i5
  simp only [weeklyRollup]
  simp only [add_zero, zero_add, sub_zero] at i1 i2 i3 i4
  rw [sub_eq_zero] at i1 i2 i3 i4
  exact ⟨i1, by simpa using i5, i2, i3, i4⟩

/-! ### Intensity-zone distribution (`calculateIntensityDistribution`) -/

/-- One zone of the intensity distribution. -/
structure IntensityZone where
  name : String
  color : String
  duration : ℚ
deriving DecidableEq, Repr

/-- The fixed training-zone reference sequence of the source — note it
includes the synthetic `Unlabeled` entry as its final element. -/
def zoneOrder : List String :=
  ["Recovery", "Zone 2", "Tempo", "Sweet Spot", "Threshold", "VO2 Max",
    "Anaerobic", "Sprints", "Unlabeled"]

/-- Index `zoneOrder.indexOf(name)`, with `none` for `-1`. -/
def zoneIdx (n : String) : Option Nat := zoneOrder.findIdx? (fun z => decide (z = n))

/-- The sort comparator of `calculateIntensityDistribution` as a total
preorder: reference zones ordered by reference rank, every reference
zone (including `Unlabeled`) before every custom name, custom names
alphabetically (`localeCompare` modelled as code-unit order). -/
def zoneLeB (a b : IntensityZone) : Bool :=
  match zoneIdx a.name, zoneIdx b.name with
  | some i, some j => decide (i ≤ j)
  | some _, none => true
  | none, some _ => false
  | none, none => decide (a.name ≤ b.name)

/-- Comparator `zoneLeB` as a relation. -/
def zoneRel (a b : IntensityZone) : Prop := zoneLeB a b = true

instance : DecidableRel zoneRel := fun a b => instDecidableEqBool (zoneLeB a b) true

instance : IsTotal IntensityZone zoneRel := ⟨by
  intro a b
  simp only [zoneRel, zoneLeB]
  rcases ha : zoneIdx a.name with _ | i <;> rcases hb : zoneIdx b.name with _ | j
  · simpa using le_total a.name b.name
  · simp
  · simp
  · simpa using Nat.le_total i j⟩

instance : IsTrans IntensityZone zoneRel := ⟨by
  intro a b c hab hbc
  simp only [zoneRel, zoneLeB] at hab hbc ⊢
  rcases ha : zoneIdx a.name with _ | i <;>
    rcases hb : zoneIdx b.name with _ | j <;>
      rcases hc : zoneIdx c.name with _ | k <;>
        simp_all <;>
          exact le_trans hab hbc⟩

/-- The `distribution` record initialised with a zero entry per
reference zone (placeholder colors: white for `Unlabeled`, black
otherwise). -/
def initDistribution : List IntensityZone :=
  zoneOrder.map (fun z => ⟨z, if z = "Unlabeled" then "#FFFFFF" else "#000000", 0⟩)

/-- Merge one `byLabel` entry into the distribution: create the entry if
the name is new, otherwise add the hours (upgrading a black placeholder
color to the label's real color). -/
def addZone (l : LabelData) : List IntensityZone → List IntensityZone
  | [] => [⟨l.name, l.color, l.duration⟩]
  | z :: zs =>
    if z.name = l.name then
      ⟨z.name, if z.color = "#000000" then l.color else z.color,
        z.duration + l.duration⟩ :: zs
    else z :: addZone l zs

/-- The final `.sort(comparator)` (JavaScript's stable sort with the
source's consistent comparator, modelled by stable insertion sort). -/
def sortZones (zones : List IntensityZone) : List IntensityZone :=
  List.insertionSort zoneRel zones

/-- Function `calculateIntensityDistribution` from `WeeklySummary.tsx`: merge the
three sports' `byLabel` records (swim, then bike, then run) into the
initialised distribution, drop zero-duration zones, and sort. -/
def calculateIntensityDistribution
    (swimLabels bikeLabels runLabels : List LabelData) : List IntensityZone :=
  sortZones (((swimLabels ++ bikeLabels ++ runLabels).foldl (fun d l => addZone l d)
    initDistribution).filter (fun z => decide (0 < z.duration)))

/--
C5 (amended): the derived `intensityZones` sequence contains only
positive-duration zones and is sorted by the comparator order `zoneRel`:
reference-sequence names in reference order, the synthetic `Unlabeled`
zone ranked as the last reference entry (so after `Sprints` but before
every custom name), and unknown/custom names alphabetically after all
reference entries. In particular `[VO2 Max: 1h, Recovery: 2h,
CustomZone: 1h]` sorts to `[Recovery, VO2 Max, CustomZone]`.
-/
theorem intensity_zones_sorted (swimLabels bikeLabels runLabels : List LabelData) :
    List.Sorted zoneRel (calculateIntensityDistribution swimLabels bikeLabels runLabels)
    ∧ (∀ z ∈ calculateIntensityDistribution swimLabels bikeLabels runLabels,
        0 < z.duration)
    ∧ (calculateIntensityDistribution
          [⟨some 1, "VO2 Max", "#AA0000", 1⟩, ⟨some 2, "Recovery", "#00AA00", 2⟩,
            ⟨some 3, "CustomZone", "#0000AA", 1⟩] [] []).map (fun z => z.name)
        = ["Recovery", "VO2 Max", "CustomZone"] := by
  refine ⟨List.sorted_insertionSort _ _, ?_, ?_⟩
  · intro z hz
    simp only [calculateIntensityDistribution, sortZones] at hz
    have hz2 := (List.mem_insertionSort zoneRel).mp hz
    have hz3 := List.mem_filter.mp hz2
    simpa using hz3.2
  · norm_num +decide [calculateIntensityDistribution, sortZones, initDistribution,
      zoneOrder, addZone, List.insertionSort, List.orderedInsert, zoneRel, zoneLeB,
      zoneIdx, List.findIdx?, List.findIdx?_cons]

/-- C5 counterexample: with an `Unlabeled` zone and a custom zone both
present (1h each), the sorted output is `[Unlabeled, CustomZone]` — the
synthetic `Unlabeled` zone does not sort last, contradicting the claimed
order `[CustomZone, Unlabeled]`. -/
theorem intensity_zone_order_claim_counterexample :
    (calculateIntensityDistribution
        [⟨none, "Unlabeled", "#FFFFFF", 1⟩, ⟨some 9, "CustomZone", "#123456", 1⟩]
        [] []).map (fun z => z.name)
      = ["Unlabeled", "CustomZone"]
    ∧ (calculateIntensityDistribution
        [⟨none, "Unlabeled", "#FFFFFF", 1⟩, ⟨some 9, "CustomZone", "#123456", 1⟩]
        [] []).map (fun z => z.name)
      ≠ ["CustomZone", "Unlabeled"] := by
  constructor <;>
    norm_num +decide [calculateIntensityDistribution, sortZones, initDistribution,
      zoneOrder, addZone, List.insertionSort, List.orderedInsert, zoneRel, zoneLeB,
      zoneIdx, List.findIdx?, List.findIdx?_cons]

/-! ### `POST /api/workouts` (create with end-of-day order) -/

/-- A create request body. `order` models a client-supplied order value;
the handler never reads it. Of the route's falsy-field validation only
the `title` check is expressible in this typed model. -/
structure CreateRequest where
  type : WorkoutType
  title : String
  description : Option String
  duration : Nat
  date : Nat
  labelId : Option Nat
  order : Option Nat
deriving DecidableEq, Repr

/-- Route `POST /api/workouts`: validate, compute
`newOrder = (highest order among the user's workouts of that day) + 1`
(`0` on an empty day), and create the workout with a fresh id. -/
def postWorkout (userId nextId : Nat) (store : List Workout) (r : CreateRequest) :
    Except String (Workout × List Workout) :=
  if r.title = "" then Except.error "Missing required fields"
  else
    let dayWorkouts := store.filter (fun w => decide (w.userId = userId ∧ w.date = r.date))
    let newOrder :=
      match (dayWorkouts.map (fun w => w.order)).max? with
      | some m => m + 1
      | none => 0
    let w : Workout :=
      ⟨nextId, r.type, r.title, r.description.getD "", r.duration, r.date, newOrder,
        r.labelId, userId⟩
    Except.ok (w, store ++ [w])

/--
C10: workout creation appends at the end of the day: the stored order of
the new workout is `0` when the user has no workout on that calendar day
and strictly greater than every existing order (specifically, maximum
+ 1) otherwise; any client-supplied `order` value is ignored.
-/
theorem postWorkout_appends_at_day_end
    (userId nextId : Nat) (store : List Workout) (r : CreateRequest)
    (htitle : r.title ≠ "") :
    ∃ w store2, postWorkout userId nextId store r = Except.ok (w, store2)
    ∧ (store.filter (fun x => decide (x.userId = userId ∧ x.date = r.date)) = []
        → w.order = 0)
    ∧ (∀ x ∈ store.filter (fun x => decide (x.userId = userId ∧ x.date = r.date)),
        x.order < w.order)
    ∧ (store.filter (fun x => decide (x.userId = userId ∧ x.date = r.date)) ≠ []
        → ∃ x ∈ store.filter (fun x => decide (x.userId = userId ∧ x.date = r.date)),
          w.order = x.order + 1)
    ∧ (∀ o, postWorkout userId nextId store { r with order := o }
        = postWorkout userId nextId store r) := by
  cases hmax : ((store.filter
      (fun x => decide (x.userId = userId ∧ x.date = r.date))).map
      (fun w => w.order)).max? with
  | none =>
    have hempty : store.filter (fun x => decide (x.userId = userId ∧ x.date = r.date))
        = [] := by
      rwa [List.max?_eq_none_iff, List.map_eq_nil_iff] at hmax
    refine ⟨⟨nextId, r.type, r.title, r.description.getD "", r.duration, r.date, 0,
      r.labelId, userId⟩,
      store ++ [⟨nextId, r.type, r.title, r.description.getD "", r.duration, r.date, 0,
        r.labelId, userId⟩], ?_, ?_, ?_, ?_, ?_⟩
    · rw [postWorkout, if_neg htitle]
      simp only [hmax]
    · intro _
      rfl
    · intro x hx
      rw [hempty] at hx
      cases hx
    · intro hne
      exact absurd hempty hne
    · intro o
      rfl
  | some m =>
    obtain ⟨hmem, hle⟩ := List.max?_eq_some_iff'.mp hmax
    obtain ⟨x0, hx0, hx0o⟩ := List.mem_map.mp hmem
    refine ⟨⟨nextId, r.type, r.title, r.description.getD "", r.duration, r.date, m + 1,
      r.labelId, userId⟩,
      store ++ [⟨nextId, r.type, r.title, r.description.getD "", r.duration, r.date, m + 1,
        r.labelId, userId⟩], ?_, ?_, ?_, ?_, ?_⟩
    · rw [postWorkout, if_neg htitle]
      simp only [hmax]
    · intro hempty
      rw [hempty] at hmax
      simp at hmax
    · intro x hx
      have := hle x.order (List.mem_map.mpr ⟨x, hx, rfl⟩)
      show x.order < m + 1
      omega
    · intro hne
      exact ⟨x0, hx0, by rw [hx0o]⟩
    · intro o
      rfl

/-- C10 witness: creating on a day already holding orders `0` and `1`
yields order `2`; the request's own `order` field is ignored. -/
theorem postWorkout_appends_at_day_end_witness :
    ∃ w store2,
      postWorkout 7 100 fourDay ⟨WorkoutType.Run, "new", none, 30, 10, none, some 42⟩
        = Except.ok (w, store2)
    ∧ (fourDay.filter (fun x => decide (x.userId = 7 ∧ x.date = 10)) = []
        → w.order = 0)
    ∧ (∀ x ∈ fourDay.filter (fun x => decide (x.userId = 7 ∧ x.date = 10)),
        x.order < w.order)
    ∧ (fourDay.filter (fun x => decide (x.userId = 7 ∧ x.date = 10)) ≠ []
        → ∃ x ∈ fourDay.filter (fun x => decide (x.userId = 7 ∧ x.date = 10)),
          w.order = x.order + 1)
    ∧ (∀ o, postWorkout 7 100 fourDay
          { (⟨WorkoutType.Run, "new", none, 30, 10, none, some 42⟩ : CreateRequest)
            with order := o }
        = postWorkout 7 100 fourDay ⟨WorkoutType.Run, "new", none, 30, 10, none, some 42⟩) :=
  postWorkout_appends_at_day_end 7 100 fourDay
    ⟨WorkoutType.Run, "new", none, 30, 10, none, some 42⟩ (by decide)

/-! ### `PATCH /api/workouts` (atomic batch reorder) -/

/-- One item of the PATCH request body; items lacking an id or an order
are skipped by the handler. -/
structure ReorderItem where
  id : Option Nat
  order : Option Nat
  date : Option Nat
deriving DecidableEq, Repr

/-- One `prisma.workout.update` of the batch: set the workout's order
(and date, when given) where `id` and `userId` match; fail (`P2025`)
when no such workout exists. -/
def applyUpdate (userId : Nat) (store : List Workout) (u : Nat × Nat × Option Nat) :
    Except String (List Workout) :=
  if store.any (fun w => decide (w.id = u.1 ∧ w.userId = userId)) then
    Except.ok (store.map (fun w =>
      if w.id = u.1 ∧ w.userId = userId then
        { w with order := u.2.1, date := u.2.2.getD w.date }
      else w))
  else Except.error "Record not found"

/-- Sequential execution of the batched updates inside the transaction. -/
def runUpdates (userId : Nat) : List (Nat × Nat × Option Nat) → List Workout →
    Except String (List Workout)
  | [], store => Except.ok store
  | u :: us, store =>
    match applyUpdate userId store u with
    | Except.ok store2 => runUpdates userId us store2
    | Except.error e => Except.error e

/-- The updates extracted from the request items (`!item.id` /
`item.order === undefined` entries are skipped). -/
def extractUpdates (items : List ReorderItem) : List (Nat × Nat × Option Nat) :=
  items.filterMap (fun i =>
    match i.id, i.order with
    | some id2, some ord => some (id2, ord, i.date)
    | _, _ => none)

/-- Route `PATCH /api/workouts`: run every update in one
`prisma.$transaction`; per that contract the batch is all-or-nothing,
so on failure the stored state is unchanged and the endpoint reports
an error (`false`). -/
def patchWorkouts (userId : Nat) (store : List Workout) (items : List ReorderItem) :
    List Workout × Bool :=
  match runUpdates userId (extractUpdates items) store with
  | Except.ok store2 => (store2, true)
  | Except.error _ => (store, false)

theorem applyUpdate_keys (userId : Nat) (store store2 : List Workout)
    (u : Nat × Nat × Option Nat) (h : applyUpdate userId store u = Except.ok store2) :
    store2.map (fun w => (w.id, w.userId)) = store.map (fun w => (w.id, w.userId)) := by
  rw [applyUpdate] at h
  by_cases hc : store.any (fun w => decide (w.id = u.1 ∧ w.userId = userId)) = true
  · rw [if_pos hc] at h
    obtain rfl := Except.ok.inj h
    rw [List.map_map]
    refine List.map_congr_left ?_
    intro w hw
    by_cases hm : w.id = u.1 ∧ w.userId = userId
    · simp [hm]
    · simp [hm]
  · rw [if_neg hc] at h
    cases h

theorem applyUpdate_sets (userId : Nat) (store store2 : List Workout)
    (u : Nat × Nat × Option Nat) (h : applyUpdate userId store u = Except.ok store2) :
    ∃ w ∈ store2, w.id = u.1 ∧ w.userId = userId ∧ w.order = u.2.1
      ∧ ∀ d, u.2.2 = some d → w.date = d := by
  rw [applyUpdate] at h
  by_cases hc : store.any (fun w => decide (w.id = u.1 ∧ w.userId = userId)) = true
  · rw [if_pos hc] at h
    obtain rfl := Except.ok.inj h
    obtain ⟨w, hw, hwp⟩ := List.any_eq_true.mp hc
    have hwp2 : w.id = u.1 ∧ w.userId = userId := of_decide_eq_true hwp
    refine ⟨{ w with order := u.2.1, date := u.2.2.getD w.date }, ?_, hwp2.1, hwp2.2, rfl, ?_⟩
    · refine List.mem_map.mpr ⟨w, hw, ?_⟩
      rw [if_pos hwp2]
    · intro d hd
      simp [hd]
  · rw [if_neg hc] at h
    cases h

theorem applyUpdate_frame (userId : Nat) (store store2 : List Workout)
    (u : Nat × Nat × Option Nat) (h : applyUpdate userId store u = Except.ok store2)
    {w : Workout} (hw : w ∈ store) (hne : w.id ≠ u.1) : w ∈ store2 := by
  rw [applyUpdate] at h
  by_cases hc : store.any (fun w => decide (w.id = u.1 ∧ w.userId = userId)) = true
  · rw [if_pos hc] at h
    obtain rfl := Except.ok.inj h
    refine List.mem_map.mpr ⟨w, hw, ?_⟩
    rw [if_neg (fun hx => hne hx.1)]
  · rw [if_neg hc] at h
    cases h

theorem runUpdates_frame (userId : Nat) (us : List (Nat × Nat × Option Nat))
    (store store2 : List Workout) (h : runUpdates userId us store = Except.ok store2)
    {w : Workout} (hw : w ∈ store) (hne : w.id ∉ us.map (fun u => u.1)) : w ∈ store2 := by
  induction us generalizing store with
  | nil => exact (Except.ok.inj h) ▸ hw
  | cons u us ih =>
    rw [runUpdates] at h
    cases ha : applyUpdate userId store u with
    | error e => rw [ha] at h; cases h
    | ok store1 =>
      rw [ha] at h
      have hne1 : w.id ≠ u.1 := fun hx => hne (by simp [hx])
      have hne2 : w.id ∉ us.map (fun u => u.1) := fun hx => hne (by simp [hx])
      exact ih store1 h (applyUpdate_frame userId store store1 u ha hw hne1) hne2

theorem runUpdates_applies (userId : Nat) (us : List (Nat × Nat × Option Nat))
    (store store2 : List Workout)
    (hus : (us.map (fun u => u.1)).Nodup)
    (h : runUpdates userId us store = Except.ok store2) :
    ∀ u ∈ us, ∃ w ∈ store2, w.id = u.1 ∧ w.userId = userId ∧ w.order = u.2.1
      ∧ ∀ d, u.2.2 = some d → w.date = d := by
  induction us generalizing store with
  | nil => intro u hu; cases hu
  | cons u us ih =>
    rw [runUpdates] at h
    cases ha : applyUpdate userId store u with
    | error e => rw [ha] at h; cases h
    | ok store1 =>
      rw [ha] at h
      rw [List.map_cons, List.nodup_cons] at hus
      intro v hv
      rcases List.mem_cons.mp hv with rfl | hv2
      · obtain ⟨w, hw1, hwid, hwu, hwo, hwd⟩ :=
          applyUpdate_sets userId store store1 v ha
        refine ⟨w, ?_, hwid, hwu, hwo, hwd⟩
        exact runUpdates_frame userId us store1 store2 h hw1 (hwid ▸ hus.1)
      · exact ih store1 hus.2 h v hv2

/-- The ids addressed by the extracted updates are among the request
item ids. -/
theorem extractUpdates_ids_sublist (items : List ReorderItem) :
    List.Sublist ((extractUpdates items).map (fun u => u.1))
      (items.filterMap (fun i => i.id)) := by
  induction items with
  | nil => exact List.Sublist.refl _
  | cons it its ih =>
    cases hid : it.id with
    | none =>
      simp only [extractUpdates, List.filterMap_cons, hid]
      exact ih
    | some i =>
      cases hord : it.order with
      | none =>
        simp only [extractUpdates, List.filterMap_cons, hid, hord]
        exact ih.cons i
      | some o =>
        simp only [extractUpdates, List.filterMap_cons, hid, hord, List.map_cons]
        exact ih.cons₂ i

/--
C8: the batch reorder endpoint is all-or-nothing. When it reports
failure the stored workout state is unchanged; when it reports success,
every item of the request that carries an id and an order has its
workout stored with exactly that order, and with the item's date when
one was given. (Atomicity of `prisma.$transaction` is modelled per its
documented contract; item ids are assumed distinct, as for rows of a
keyed table.)
-/
theorem patchWorkouts_atomic (userId : Nat) (store : List Workout)
    (items : List ReorderItem)
    (hitems : (items.filterMap (fun i => i.id)).Nodup) :
    ((patchWorkouts userId store items).2 = false →
      (patchWorkouts userId store items).1 = store)
    ∧ ((patchWorkouts userId store items).2 = true →
      ∀ it ∈ items, ∀ i o, it.id = some i → it.order = some o →
        ∃ w ∈ (patchWorkouts userId store items).1,
          w.id = i ∧ w.userId = userId ∧ w.order = o
          ∧ ∀ d, it.date = some d → w.date = d) := by
  cases hrun : runUpdates userId (extractUpdates items) store with
  | error e =>
    refine ⟨?_, ?_⟩
    · intro _
      simp [patchWorkouts, hrun]
    · intro hok
      rw [patchWorkouts, hrun] at hok
      cases hok
  | ok store2 =>
    have hus : ((extractUpdates items).map (fun u => u.1)).Nodup :=
      (extractUpdates_ids_sublist items).nodup hitems
    refine ⟨?_, ?_⟩
    · intro hfail
      rw [patchWorkouts, hrun] at hfail
      cases hfail
    · intro _ it hit i o hid hord
      have hmem : (i, o, it.date) ∈ extractUpdates items := by
        refine List.mem_filterMap.mpr ⟨it, hit, ?_⟩
        rw [hid, hord]
      obtain ⟨w, hw, h1, h2, h3, h4⟩ :=
        runUpdates_applies userId (extractUpdates items) store store2 hus hrun
          (i, o, it.date) hmem
      refine ⟨w, ?_, h1, h2, h3, h4⟩
      simp [patchWorkouts, hrun]
      exact hw

/-- C8 witness: a two-item batch moving workouts `1` and `2` (the second
onto day `11`) succeeds and stores the new orders and date. -/
theorem patchWorkouts_atomic_witness :
    ((patchWorkouts 7 fourDay [⟨some 1, some 1, none⟩, ⟨some 2, some 0, some 11⟩]).2 = false →
      (patchWorkouts 7 fourDay [⟨some 1, some 1, none⟩, ⟨some 2, some 0, some 11⟩]).1
        = fourDay)
    ∧ ((patchWorkouts 7 fourDay [⟨some 1, some 1, none⟩, ⟨some 2, some 0, some 11⟩]).2 = true →
      ∀ it ∈ [(⟨some 1, some 1, none⟩ : ReorderItem), ⟨some 2, some 0, some 11⟩],
        ∀ i o, it.id = some i → it.order = some o →
        ∃ w ∈ (patchWorkouts 7 fourDay
            [⟨some 1, some 1, none⟩, ⟨some 2, some 0, some 11⟩]).1,
          w.id = i ∧ w.userId = 7 ∧ w.order = o
          ∧ ∀ d, it.date = some d → w.date = d) :=
  patchWorkouts_atomic 7 fourDay [⟨some 1, some 1, none⟩, ⟨some 2, some 0, some 11⟩]
    (by decide)

/-! ### `POST /api/workouts/copy-week` -/

/-- Function `endOfWeek(d, weekStartsOn: 1)` of date-fns: the Sunday of the week containing
day `d` (day numbers divisible by 7 are Mondays, so the day-of-week
offset of `d` is `d % 7`). -/
def endOfWeekMonday (d : Nat) : Nat := d + (6 - d % 7)

/-- The copied workout created for source workout `w`: same sport,
title, description, duration, label and verbatim `order`; date at the
target week's same weekday; a fresh database id. -/
def copyOne (userId tws id2 : Nat) (w : Workout) : Workout :=
  ⟨id2, w.type, w.title, w.description, w.duration, tws + w.date % 7, w.order,
    w.labelId, userId⟩

/-- Create the copies in sequence, drawing consecutive fresh ids. -/
def createCopies (userId tws k : Nat) : List Workout → List Workout
  | [] => []
  | w :: ws => copyOne userId tws k w :: createCopies userId tws (k + 1) ws

/-- Route `POST /api/workouts/copy-week`: find the user's workouts of the
source week, fail when there are none, otherwise create one copy per
workout, walking the days of the week in order (`Object.entries` of the
day groups, ascending) and each day's workouts sorted by `order`. -/
def copyWeek (userId nextId : Nat) (store : List Workout) (sws tws : Nat) :
    Except String (List Workout) :=
  let sourceWeekWorkouts := store.filter
    (fun w => decide (w.userId = userId ∧ sws ≤ w.date ∧ w.date ≤ endOfWeekMonday sws))
  if sourceWeekWorkouts.isEmpty then
    Except.error "No workouts found in the source week"
  else
    Except.ok (createCopies userId tws nextId
      (((List.range 7).map (fun d =>
        List.insertionSort workoutRel
          (sourceWeekWorkouts.filter (fun w => decide (w.date % 7 = d))))).flatten))

theorem createCopies_length (u t k : Nat) (l : List Workout) :
    (createCopies u t k l).length = l.length := by
  induction l generalizing k with
  | nil => rfl
  | cons w ws ih => simp [createCopies, ih]

theorem createCopies_map_id (u t k : Nat) (l : List Workout) :
    (createCopies u t k l).map (fun w => w.id) = List.range' k l.length := by
  induction l generalizing k with
  | nil => rfl
  | cons w ws ih => simp [createCopies, copyOne, List.range'_succ, ih]

theorem createCopies_getElem (u t k : Nat) (l : List Workout) (i : Nat)
    (h : i < l.length) (h2 : i < (createCopies u t k l).length) :
    (createCopies u t k l)[i] = copyOne u t (k + i) l[i] := by
  induction l generalizing k i with
  | nil => cases h
  | cons w ws ih =>
    cases i with
    | zero => rfl
    | succ i =>
      have h' : i < ws.length := Nat.lt_of_succ_lt_succ h
      have h2' : i < (createCopies u t (k + 1) ws).length := by
        rw [createCopies_length]; exact h'
      show (createCopies u t (k + 1) ws)[i] = copyOne u t (k + (i + 1)) ws[i]
      rw [ih (k + 1) i h' h2']
      have : k + 1 + i = k + (i + 1) := by omega
      rw [this]

/-- Splitting a filtered list at a threshold: the below-`k` part
followed by the exactly-`k` part is a permutation of the below-`k+1`
part. -/
theorem perm_filter_lt_succ (l : List Workout) (f : Workout → Nat) (k : Nat) :
    (l.filter (fun w => decide (f w < k)) ++ l.filter (fun w => decide (f w = k))).Perm
      (l.filter (fun w => decide (f w < k + 1))) := by
  induction l with
  | nil => simp
  | cons w ws ih =>
    by_cases h1 : f w < k
    · have h2 : ¬ f w = k := by omega
      have h3 : f w < k + 1 := by omega
      simp only [List.filter_cons, decide_eq_true h1, decide_eq_true h3,
        decide_eq_false h2, List.cons_append]
      simp only [if_true, if_false, Bool.false_eq_true]
      exact ih.cons w
    · by_cases h2 : f w = k
      · have h3 : f w < k + 1 := by omega
        simp only [List.filter_cons, decide_eq_false h1, decide_eq_true h2,
          decide_eq_true h3]
        simp only [if_true, if_false, Bool.false_eq_true]
        exact List.perm_middle.trans (ih.cons w)
      · have h3 : ¬ f w < k + 1 := by omega
        simp only [List.filter_cons, decide_eq_false h1, decide_eq_false h2,
          decide_eq_false h3]
        simp only [if_false, Bool.false_eq_true]
        exact ih

/-- Grouping by a `Nat` key and flattening the groups in key order is a
permutation of the below-`k` filter. -/
theorem partition_perm (l : List Workout) (f : Workout → Nat) (k : Nat) :
    (((List.range k).map (fun d => l.filter (fun w => decide (f w = d)))).flatten).Perm
      (l.filter (fun w => decide (f w < k))) := by
  induction k with
  | zero => simp
  | succ k ih =>
    rw [List.range_succ, List.map_append, List.flatten_append]
    simp only [List.map_cons, List.map_nil, List.flatten_cons, List.flatten_nil,
      List.append_nil]
    exact (ih.append_right _).trans (perm_filter_lt_succ l f k)

/-- Sorting each group before flattening preserves the multiset. -/
theorem flatten_map_perm (l : List Nat) (f g : Nat → List Workout)
    (h : ∀ d ∈ l, (f d).Perm (g d)) : ((l.map f).flatten).Perm ((l.map g).flatten) := by
  induction l with
  | nil => exact List.Perm.refl _
  | cons d ds ih =>
    simp only [List.map_cons, List.flatten_cons]
    exact (h d (List.mem_cons_self d ds)).append
      (ih (fun x hx => h x (List.mem_cons_of_mem d hx)))

/--
C6: for a non-empty source week (starting on a Monday), copy-week
succeeds and creates exactly one new workout per source-week workout: a
permutation `src2` of the source-week workouts pairs up positionally
with the created list, and each copy carries the same sport type,
title, description, duration, label reference and verbatim `order`, a
date of `targetWeekStart` plus the source workout's Monday-based
day-of-week offset, and a fresh id distinct from every stored
workout's; the created ids are also pairwise distinct.
-/
theorem copyWeek_copies_week (userId nextId : Nat) (store : List Workout)
    (sws tws : Nat)
    (hmon : sws % 7 = 0)
    (hfresh : ∀ w ∈ store, w.id < nextId)
    (hne : store.filter (fun w => decide (w.userId = userId ∧ sws ≤ w.date
        ∧ w.date ≤ endOfWeekMonday sws)) ≠ []) :
    ∃ (created src2 : List Workout),
      copyWeek userId nextId store sws tws = Except.ok created
      ∧ src2.Perm (store.filter (fun w => decide (w.userId = userId ∧ sws ≤ w.date
          ∧ w.date ≤ endOfWeekMonday sws)))
      ∧ created.length = src2.length
      ∧ (∀ i, ∀ h1 : i < created.length, ∀ h2 : i < src2.length,
          created[i].type = src2[i].type
          ∧ created[i].title = src2[i].title
          ∧ created[i].description = src2[i].description
          ∧ created[i].duration = src2[i].duration
          ∧ created[i].labelId = src2[i].labelId
          ∧ created[i].order = src2[i].order
          ∧ created[i].date = tws + (src2[i].date - sws)
          ∧ created[i].id ∉ store.map (fun w => w.id))
      ∧ ((created.map (fun w => w.id)).Nodup) := by
  set F := store.filter (fun w => decide (w.userId = userId ∧ sws ≤ w.date
    ∧ w.date ≤ endOfWeekMonday sws)) with hF
  set G := ((List.range 7).map (fun d =>
    List.insertionSort workoutRel (F.filter (fun w => decide (w.date % 7 = d))))).flatten
    with hG
  have hperm : G.Perm F := by
    rw [hG]
    refine (flatten_map_perm (List.range 7)
        (fun d => List.insertionSort workoutRel
          (F.filter (fun w => decide (w.date % 7 = d))))
        (fun d => F.filter (fun w => decide (w.date % 7 = d)))
        (fun d _ => List.perm_insertionSort _ _)).trans ?_
    refine (partition_perm F (fun w => w.date % 7) 7).trans ?_
    have hall : ∀ w : Workout, decide (w.date % 7 < 7) = true := fun w =>
      decide_eq_true (Nat.mod_lt _ (by omega))
    rw [List.filter_eq_self.mpr (fun a _ => hall a)]
  refine ⟨createCopies userId tws nextId G, G, ?_, hperm, ?_, ?_, ?_⟩
  · rw [copyWeek]
    rw [if_neg (fun h => hne (List.isEmpty_iff.mp h))]
  · rw [createCopies_length]
  · intro i h1 h2
    have hc := createCopies_getElem userId tws nextId G i h2 h1
    have hmem : G[i] ∈ F := hperm.mem_iff.mp (List.getElem_mem h2)
    have hbounds := of_decide_eq_true (List.mem_filter.mp hmem).2
    rw [hc]
    refine ⟨rfl, rfl, rfl, rfl, rfl, rfl, ?_, ?_⟩
    · show tws + G[i].date % 7 = tws + (G[i].date - sws)
      have hlb := hbounds.2.1
      have hub := hbounds.2.2
      simp only [endOfWeekMonday] at hub
      omega
    · show (nextId + i) ∉ store.map (fun w => w.id)
      intro hin
      obtain ⟨w, hw, hwid⟩ := List.mem_map.mp hin
      have := hfresh w hw
      omega
  · rw [createCopies_map_id]
    exact List.nodup_range' _ _

/-- A Monday workout (day 0) for the copy-week witness. -/
def exMon : Workout := ⟨10, .Bike, "Mon ride", "", 60, 0, 0, some 3, 7⟩

/-- A Wednesday workout (day 2) for the copy-week witness. -/
def exWed : Workout := ⟨11, .Run, "Wed run", "", 45, 2, 0, none, 7⟩

/-- C6 witness: a Monday workout and a Wednesday workout of week 0
copied two weeks later (week start 14). -/
theorem copyWeek_copies_week_witness :
    0 % 7 = 0
    ∧ (∀ w ∈ [exMon, exWed], w.id < 50)
    ∧ [exMon, exWed].filter (fun w => decide (w.userId = 7 ∧ 0 ≤ w.date
        ∧ w.date ≤ endOfWeekMonday 0)) ≠ []
    ∧ (∃ (created src2 : List Workout),
      copyWeek 7 50 [exMon, exWed] 0 14 = Except.ok created
      ∧ src2.Perm ([exMon, exWed].filter (fun w => decide (w.userId = 7 ∧ 0 ≤ w.date
          ∧ w.date ≤ endOfWeekMonday 0)))
      ∧ created.length = src2.length
      ∧ (∀ i, ∀ h1 : i < created.length, ∀ h2 : i < src2.length,
          created[i].type = src2[i].type
          ∧ created[i].title = src2[i].title
          ∧ created[i].description = src2[i].description
          ∧ created[i].duration = src2[i].duration
          ∧ created[i].labelId = src2[i].labelId
          ∧ created[i].order = src2[i].order
          ∧ created[i].date = 14 + (src2[i].date - 0)
          ∧ created[i].id ∉ [exMon, exWed].map (fun w => w.id))
      ∧ ((created.map (fun w => w.id)).Nodup)) :=
  ⟨by decide, by decide, by decide,
    copyWeek_copies_week 7 50 [exMon, exWed] 0 14 (by decide) (by decide) (by decide)⟩

end Triathlon
